import Mathlib

/-!
# DocScan: filename parsing, date validation, scanning and report generation

A shallow embedding of `src/docscan.go`.

Modelling conventions.

* A Go `string` is modelled by a Lean `String`, i.e. a sequence of Unicode code
  points; this is exact for every Go string that is valid UTF-8. All bytes the
  program inspects (`-`, `.`, `/`, the decimal digits) are ASCII, so looking at
  code points or at bytes gives the same answer on such strings.
* A Go function returning `(T, error)` is modelled by a function into
  `Outcome T`, which has a third constructor for a run-time panic (index or
  slice bounds out of range).
* Library functions (`strings.Split`, `strings.Join`, `strings.TrimSuffix`,
  `filepath.Ext`, `strings.ToLower`, `strings.Contains`, `time.Parse`,
  `Time.Format`) are embedded from the Go standard library, specialised to the
  arguments with which `docscan.go` calls them.
-/

set_option autoImplicit false

namespace DocScan

/-! ## Outcomes of Go calls -/

/-- The `Message` field of a `time.ParseError` built by `time.Parse`. -/
inductive ParseMessage where
  /-- The empty message: the error text is `cannot parse valueElem as layoutElem`. -/
  | none
  /-- The message `": month out of range"`. -/
  | monthOutOfRange
  /-- The message `": day out of range"`. -/
  | dayOutOfRange
  /-- The message `": extra text: " + quote(rest)`. -/
  | extraText (rest : String)
  deriving DecidableEq, Repr

/-- The struct `time.ParseError`. -/
structure ParseError where
  layout : String
  value : String
  layoutElem : String
  valueElem : String
  message : ParseMessage
  deriving DecidableEq, Repr

/-- Error values built by `docscan.go` and handed to it by `filepath.Walk`. -/
inductive GoError where
  /-- Value of `fmt.Errorf("file %s does not have enough parts", filename)`; the
  payload is the rendered message. -/
  | notEnoughParts (message : String)
  /-- Value of `fmt.Errorf("invalid date: %v", err)` where `err` is the given
  `*time.ParseError`. -/
  | invalidDate (err : ParseError)
  /-- An error handed to the walk callback by `filepath.Walk`. -/
  | fileSystem (message : String)
  deriving DecidableEq, Repr

/-- Result of running a Go function that returns `(T, error)`: a value with a
nil error, a non-nil error, or a run-time panic. -/
inductive Outcome (α : Type) where
  | ok (value : α)
  | error (e : GoError)
  | panic (message : String)
  deriving DecidableEq, Repr

namespace Outcome

/-- Sequencing: errors and panics of the first computation are propagated. -/
def bind {α β : Type} : Outcome α → (α → Outcome β) → Outcome β
  | ok a, f => f a
  | error e, _ => error e
  | panic m, _ => panic m

instance : Monad Outcome where
  pure := Outcome.ok
  bind := Outcome.bind

/-- True when the call returned a value and a nil error. -/
def isOk {α : Type} : Outcome α → Bool
  | ok _ => true
  | _ => false

/-- True when the call returned a non-nil error. -/
def isError {α : Type} : Outcome α → Bool
  | error _ => true
  | _ => false

/-- True when the call panicked. -/
def isPanic {α : Type} : Outcome α → Bool
  | panic _ => true
  | _ => false

end Outcome

/-! ## String library functions -/

/-- The predicate `os.IsPathSeparator` on a Unix build. -/
def IsPathSeparator (c : Char) : Bool := c == '/'

/-- Loop of `filepath.Ext`: scans the bytes from the last one towards the first,
stops at a path separator, and returns the suffix starting at the first dot it
meets. `rev` holds the bytes not yet visited (last first), `acc` the suffix
already passed. -/
def extScan : List Char → List Char → List Char
  | [], _ => []
  | c :: rev, acc =>
    if IsPathSeparator c then []
    else if c = '.' then c :: acc
    else extScan rev (c :: acc)

/-- The function `filepath.Ext`: the suffix beginning at the final dot in the
final element of the path, empty if there is none. -/
def Ext (path : String) : String := ⟨extScan path.data.reverse []⟩

/-- The function `strings.HasSuffix`. -/
def HasSuffix (s suffix : String) : Bool := suffix.data.isSuffixOf s.data

/-- The function `strings.TrimSuffix`. -/
def TrimSuffix (s suffix : String) : String :=
  if HasSuffix s suffix then ⟨s.data.take (s.data.length - suffix.data.length)⟩ else s

/-- Loop of `strings.Split` for a one-byte separator: `cur` holds, reversed, the
bytes of the piece being read. -/
def splitLoop (sep : Char) : List Char → List Char → List String
  | [], cur => [⟨cur.reverse⟩]
  | c :: cs, cur =>
    if c = sep then ⟨cur.reverse⟩ :: splitLoop sep cs [] else splitLoop sep cs (c :: cur)

/-- The call `strings.Split(s, sep)` for a one-byte separator `sep`. -/
def Split (s : String) (sep : Char) : List String := splitLoop sep s.data []

/-- The function `strings.Join`. -/
def Join : List String → String → String
  | [], _ => ""
  | [a], _ => a
  | a :: b :: rest, sep => a ++ sep ++ Join (b :: rest) sep

/-- Go index expression `a[i]` on a slice: panics when `i` is out of range. -/
def index (a : List String) (i : Nat) : Outcome String :=
  match a[i]? with
  | some x => Outcome.ok x
  | none =>
    Outcome.panic ("index out of range [" ++ toString i ++ "] with length " ++ toString a.length)

/-- Go slice expression `a[lo:hi]` on a slice whose capacity equals its length
(as for the result of `strings.Split`): panics unless `lo ≤ hi ≤ len(a)`. -/
def slice (a : List String) (lo hi : Nat) : Outcome (List String) :=
  if hi ≤ a.length then
    if lo ≤ hi then Outcome.ok ((a.drop lo).take (hi - lo))
    else Outcome.panic ("slice bounds out of range [" ++ toString lo ++ ":" ++ toString hi ++ "]")
  else
    Outcome.panic ("slice bounds out of range [:" ++ toString hi ++ "] with capacity "
      ++ toString a.length)

/-! ## extractFields -/

/-- The five strings returned by `extractFields`, in the order of its result
list. -/
structure Fields where
  group : String
  date : String
  price : String
  establishment : String
  category : String
  deriving DecidableEq, Repr

/-- The name after `strings.TrimSuffix(filename, filepath.Ext(filename))`. -/
def stripExt (filename : String) : String := TrimSuffix filename (Ext filename)

/-- The slice `parts` of `extractFields`. -/
def tokens (filename : String) : List String := Split (stripExt filename) '-'

/-- The function `extractFields` of `docscan.go`. The subtractions
`len(parts)-k` are evaluated after the length check, where they do not go below
zero. -/
def extractFields (filename : String) : Outcome Fields :=
  let filename := TrimSuffix filename (Ext filename)
  let parts := Split filename '-'
  if parts.length < 6 then
    Outcome.error (GoError.notEnoughParts ("file " ++ filename ++ " does not have enough parts"))
  else do
    let group ← index parts 1
    let price ← index parts (parts.length - 4)
    let establishment ← index parts 2
    let cat ← slice parts 3 (parts.length - 4)
    let category := Join cat "-"
    let y ← index parts (parts.length - 3)
    let m ← index parts (parts.length - 2)
    let d ← index parts (parts.length - 1)
    let date := y ++ "-" ++ m ++ "-" ++ d
    Outcome.ok
      { group := group, date := date, price := price, establishment := establishment,
        category := category }

/-! ## parseDate -/

/-- A `time.Time` at midnight UTC, represented by its civil date. -/
structure Date where
  year : Int
  month : Nat
  day : Nat
  deriving DecidableEq, Repr

/-- The helper `isDigit` of package `time`: byte `i` of `s` exists and is a
decimal digit. -/
def isDigit (s : List Char) (i : Nat) : Bool :=
  match s[i]? with
  | some c => decide ('0' ≤ c ∧ c ≤ '9')
  | none => false

/-- Value of the digit byte `c`, i.e. `c - '0'`. -/
def digitVal (c : Char) : Nat := c.toNat - '0'.toNat

/-- The helper `leadingInt` of package `time`: consumes the leading digits of
`s`, starting from the accumulated value `x`; `none` is `errLeadingInt`
(overflow). -/
def leadingInt : List Char → Nat → Option (Nat × List Char)
  | [], x => some (x, [])
  | c :: cs, x =>
    if c < '0' ∨ c > '9' then some (x, c :: cs)
    else if x > 2 ^ 63 / 10 then none
    else if x * 10 + digitVal c > 2 ^ 63 then none
    else leadingInt cs (x * 10 + digitVal c)

/-- The helper `atoi` of package `time`; `none` is `errAtoi`. -/
def atoi (s : List Char) : Option Int :=
  let neg := decide (s.head? = some '-')
  let s := if s.head? = some '-' ∨ s.head? = some '+' then s.drop 1 else s
  match leadingInt s 0 with
  | some (q, []) => some (if neg then -(q : Int) else (q : Int))
  | _ => none

/-- The helper `getnum` of package `time`: a one- or two-digit number, two
digits exactly when `fixed`; `none` is `errBad`. -/
def getnum (s : List Char) (fixed : Bool) : Option (Nat × List Char) :=
  if !isDigit s 0 then none
  else if !isDigit s 1 then
    if fixed then none else some (digitVal (s.getD 0 '0'), s.drop 1)
  else some (digitVal (s.getD 0 '0') * 10 + digitVal (s.getD 1 '0'), s.drop 2)

/-- The helper `skip` of package `time` for a prefix without spaces: removes
`pre` from the front of `value`; `none` is `errBad`. -/
def skip : List Char → List Char → Option (List Char)
  | value, [] => some value
  | [], _ :: _ => none
  | v :: value, p :: pre => if v ≠ p then none else skip value pre

/-- The function `isLeap` of package `time`. -/
def isLeap (year : Int) : Bool :=
  year % 4 == 0 && (year % 100 != 0 || year % 400 == 0)

/-- The table `daysBefore` of package `time`. -/
def daysBefore : List Nat :=
  [0, 31, 31 + 28, 31 + 28 + 31, 31 + 28 + 31 + 30, 31 + 28 + 31 + 30 + 31,
   31 + 28 + 31 + 30 + 31 + 30, 31 + 28 + 31 + 30 + 31 + 30 + 31,
   31 + 28 + 31 + 30 + 31 + 30 + 31 + 31, 31 + 28 + 31 + 30 + 31 + 30 + 31 + 31 + 30,
   31 + 28 + 31 + 30 + 31 + 30 + 31 + 31 + 30 + 31,
   31 + 28 + 31 + 30 + 31 + 30 + 31 + 31 + 30 + 31 + 30,
   31 + 28 + 31 + 30 + 31 + 30 + 31 + 31 + 30 + 31 + 30 + 31]

/-- The function `daysIn` of package `time`, called with a month in `1..12`. -/
def daysIn (month : Nat) (year : Int) : Nat :=
  if month = 2 ∧ isLeap year = true then 29
  else daysBefore.getD month 0 - daysBefore.getD (month - 1) 0

/-- The layout string passed to `time.Parse` and `Time.Format`. -/
def dateLayout : String := "2006-01-02"

/-- The call `time.Parse("2006-01-02", avalue)`: the parse loop unrolled over
the chunks of the layout (`2006`, then `-` `01`, then `-` `02`, then the end),
followed by the validation of the day of the month. -/
def timeParse (avalue : String) : Except ParseError Date :=
  let fail (layoutElem : String) (valueElem : List Char) (message : ParseMessage) :
      Except ParseError Date :=
    Except.error
      { layout := dateLayout, value := avalue, layoutElem := layoutElem,
        valueElem := ⟨valueElem⟩, message := message }
  let value := avalue.data
  -- chunk stdLongYear
  if value.length < 4 || !isDigit value 0 then fail "2006" value ParseMessage.none
  else
    match atoi (value.take 4) with
    | none => fail "2006" value ParseMessage.none
    | some year =>
      let value := value.drop 4
      -- prefix "-", chunk stdZeroMonth
      match skip value ['-'] with
      | none => fail "-" value ParseMessage.none
      | some value =>
        match getnum value true with
        | none => fail "01" value ParseMessage.none
        | some (month, rest) =>
          if month ≤ 0 ∨ 12 < month then fail "01" rest ParseMessage.monthOutOfRange
          else
            -- prefix "-", chunk stdZeroDay
            match skip rest ['-'] with
            | none => fail "-" rest ParseMessage.none
            | some value =>
              match getnum value true with
              | none => fail "02" value ParseMessage.none
              | some (day, rest) =>
                -- end of layout
                if rest.length ≠ 0 then
                  fail "" rest (ParseMessage.extraText ⟨rest⟩)
                else if day < 1 ∨ day > daysIn month year then
                  fail "" rest ParseMessage.dayOutOfRange
                else Except.ok { year := year, month := month, day := day }

/-- The function `parseDate` of `docscan.go`. -/
def parseDate (date : String) : Outcome Date :=
  match timeParse date with
  | Except.error err => Outcome.error (GoError.invalidDate err)
  | Except.ok parsedDate => Outcome.ok parsedDate

/-! ## isRelevantFile -/

/-- The function `unicode.ToLower`. Its value on the ASCII range is computed; on
other code points it is read from the Unicode case tables, which are the
parameter `table`. -/
def unicodeToLower (table : Char → Char) (r : Char) : Char :=
  if r.toNat ≤ 127 then
    if 'A' ≤ r ∧ r ≤ 'Z' then Char.ofNat (r.toNat + ('a'.toNat - 'A'.toNat)) else r
  else table r

/-- The function `strings.ToLower` on a valid UTF-8 string: every code point is
mapped by `unicode.ToLower`. -/
def ToLower (table : Char → Char) (s : String) : String :=
  ⟨s.data.map (unicodeToLower table)⟩

/-- Search loop of `strings.Contains`: some suffix of the text starts with
`substr`. -/
def containsLoop (substr : List Char) : List Char → Bool
  | [] => substr.isPrefixOf []
  | c :: cs => substr.isPrefixOf (c :: cs) || containsLoop substr cs

/-- The function `strings.Contains`. -/
def Contains (s substr : String) : Bool := containsLoop substr.data s.data

/-- The function `isRelevantFile` of `docscan.go`. -/
def isRelevantFile (table : Char → Char) (fileName : String) : Bool :=
  let lowerFileName := ToLower table fileName
  Contains lowerFileName "rechnung" || Contains lowerFileName "invoice"

/-! ## scanDirectory -/

/-- The struct `Record` of `docscan.go`. -/
structure Record where
  group : String
  date : Date
  price : String
  establishment : String
  category : String
  deriving DecidableEq, Repr

/-- One call of the walk callback by `filepath.Walk`: the arguments `path`,
`info` (its `Name()` and `IsDir()`) and `err`. -/
structure Visit where
  path : String
  name : String
  isDir : Bool
  err : Option GoError
  deriving DecidableEq, Repr

/-- A message printed with `color.Red` during the scan. -/
inductive LogLine where
  /-- Output of `color.Red("Error processing file %s: %v", path, err)`. -/
  | fileError (path : String) (err : GoError)
  /-- Output of `color.Red("Error processing date for file %s: %v", path, err)`. -/
  | dateError (path : String) (err : GoError)
  deriving DecidableEq, Repr

/-- What the walk callback has built up so far: the captured variable `records`
and the messages printed. -/
structure ScanState where
  records : List Record
  log : List LogLine
  deriving DecidableEq, Repr

/-- The callback passed to `filepath.Walk` in `scanDirectory`. `Outcome.error`
is a non-nil return value, `Outcome.ok` a nil one with the updated state. -/
def walkFn (table : Char → Char) (st : ScanState) (v : Visit) : Outcome ScanState :=
  match v.err with
  | some err => Outcome.error err
  | none =>
    if v.isDir then Outcome.ok st
    else if !isRelevantFile table v.name then Outcome.ok st
    else
      match extractFields v.name with
      | Outcome.panic m => Outcome.panic m
      | Outcome.error err =>
        Outcome.ok { st with log := st.log ++ [LogLine.fileError v.path err] }
      | Outcome.ok f =>
        match parseDate f.date with
        | Outcome.panic m => Outcome.panic m
        | Outcome.error err =>
          Outcome.ok { st with log := st.log ++ [LogLine.dateError v.path err] }
        | Outcome.ok parsedDate =>
          Outcome.ok
            { st with
              records := st.records ++
                [{ group := f.group, date := parsedDate, price := f.price,
                   establishment := f.establishment, category := f.category }] }

/-- The function `filepath.Walk` seen from its callback: the callback is run on
the visits in order, and the first non-nil return value (or panic) ends the
walk. The second component is the output printed up to that point. -/
def walk (table : Char → Char) : ScanState → List Visit → Outcome ScanState × List LogLine
  | st, [] => (Outcome.ok st, st.log)
  | st, v :: vs =>
    match walkFn table st v with
    | Outcome.ok st1 => walk table st1 vs
    | Outcome.error err => (Outcome.error err, st.log)
    | Outcome.panic m => (Outcome.panic m, st.log)

/-- Result of a run of `scanDirectory`: its return value and the messages it
printed. -/
structure ScanResult where
  result : Outcome (List Record)
  log : List LogLine
  deriving DecidableEq, Repr

/-- The function `scanDirectory` of `docscan.go`, run on the sequence of visits
that `filepath.Walk` makes for the directory. -/
def scanDirectory (table : Char → Char) (visits : List Visit) : ScanResult :=
  match walk table { records := [], log := [] } visits with
  | (Outcome.ok st, log) => { result := Outcome.ok st.records, log := log }
  | (Outcome.error err, log) => { result := Outcome.error err, log := log }
  | (Outcome.panic m, log) => { result := Outcome.panic m, log := log }

/-- A visit of a regular file without error. -/
def fileVisit (path name : String) : Visit :=
  { path := path, name := name, isDir := false, err := none }

/-! ## generateReport -/

/-- Decimal digits of `u`, most significant first, as `appendInt` of package
`time` assembles them; `fuel` bounds the number of digits. -/
def decimal : Nat → Nat → List Char
  | 0, _ => []
  | fuel + 1, u =>
    if u < 10 then [Char.ofNat ('0'.toNat + u)]
    else decimal fuel (u / 10) ++ [Char.ofNat ('0'.toNat + u % 10)]

/-- The helper `appendInt` of package `time`, applied to an empty buffer: a
minus sign for a negative number, zero padding up to `width`, then the decimal
digits. -/
def appendInt (x : Int) (width : Nat) : String :=
  let u := x.natAbs
  let digits := decimal (u + 1) u
  ⟨(if x < 0 then ['-'] else []) ++ List.replicate (width - digits.length) '0' ++ digits⟩

/-- The call `t.Format("2006-01-02")`. -/
def formatDate (t : Date) : String :=
  appendInt t.year 4 ++ "-" ++ appendInt t.month 2 ++ "-" ++ appendInt t.day 2

/-- The statement `groups[record.Group] = append(groups[record.Group], record)`
on a map kept as a list of entries with distinct keys. -/
def mapAppend : List (String × List Record) → Record → List (String × List Record)
  | [], record => [(record.group, [record])]
  | (k, rs) :: rest, record =>
    if k = record.group then (k, rs ++ [record]) :: rest
    else (k, rs) :: mapAppend rest record

/-- The first loop of `generateReport`: the map `groups`. -/
def buildGroups (records : List Record) : List (String × List Record) :=
  records.foldl mapAppend []

/-- An iteration order of Go maps: for every map, an enumeration of its entries,
each exactly once. Go leaves the order of a `range` over a map unspecified. -/
structure MapOrder where
  iterate : List (String × List Record) → List (String × List Record)
  perm : ∀ m, (iterate m).Perm m

/-- The iteration order that visits the keys in insertion order. -/
def insertionOrder : MapOrder where
  iterate := fun m => m
  perm := fun m => List.Perm.refl m

/-- The line `fmt.Sprintf("%s\t%s\t%s\t%s\n", ...)` of one record. -/
def recordLine (record : Record) : String :=
  formatDate record.date ++ "\t" ++ record.price ++ "\t" ++ record.establishment ++ "\t"
    ++ record.category ++ "\n"

/-- Body of the loop `for group, records := range groups` of `generateReport`. -/
def reportStep (report : String) (entry : String × List Record) : String :=
  let report := report ++ entry.1 ++ "\n"
  let report := entry.2.foldl (fun report record => report ++ recordLine record) report
  report ++ "\n"

/-- The function `generateReport` of `docscan.go`, run with the map iteration
order `order`. -/
def generateReport (order : MapOrder) (records : List Record) : String :=
  (order.iterate (buildGroups records)).foldl reportStep ""

/-- The distinct group names of a list of records, in order of first
occurrence. -/
def groupKeys (records : List Record) : List String :=
  records.foldl (fun ks record => if record.group ∈ ks then ks else ks ++ [record.group]) []

/-- The records of group `g`, in their input order. -/
def recordsOfGroup (g : String) (records : List Record) : List Record :=
  records.filter (fun record => decide (record.group = g))

/-- The text of one group of the report: header line, one line per record, blank
line. -/
def groupBlock (g : String) (records : List Record) : String :=
  g ++ "\n"
    ++ String.join (records.map fun record =>
        formatDate record.date ++ "\t" ++ record.price ++ "\t" ++ record.establishment ++ "\t"
          ++ record.category ++ "\n")
    ++ "\n"

/-- The Record of the file `rechnung-G1-ShopA-Food-10.00-2024-01-02.pdf`. -/
def recordFood : Record :=
  { group := "G1", date := { year := 2024, month := 1, day := 2 }, price := "10.00",
    establishment := "ShopA", category := "Food" }

/-- The Record of the file `invoice-G1-ShopB-Travel-20.00-2024-02-03.pdf`. -/
def recordTravel : Record :=
  { group := "G1", date := { year := 2024, month := 2, day := 3 }, price := "20.00",
    establishment := "ShopB", category := "Travel" }

/-- The Record built from a file name that passes `isRelevantFile`, then
`extractFields`, then `parseDate`; `none` for every other name. -/
def recordOfName (table : Char → Char) (name : String) : Option Record :=
  if isRelevantFile table name then
    match extractFields name with
    | Outcome.ok f =>
      match parseDate f.date with
      | Outcome.ok t =>
        some { group := f.group, date := t, price := f.price, establishment := f.establishment,
               category := f.category }
      | _ => none
    | _ => none
  else none

/-- The callback does not return nil on this visit: the walk handed it an error,
or the entry is a relevant regular file on which `extractFields` panics. The
walk ends with this visit. -/
def walkStops (table : Char → Char) (v : Visit) : Bool :=
  v.err.isSome
    || (!v.isDir && isRelevantFile table v.name && (extractFields v.name).isPanic)

/-- The calls of the callback that the walk makes, out of the calls it would make
if none ended it: all up to and including the first one that ends the walk. -/
def visited (table : Char → Char) : List Visit → List Visit
  | [] => []
  | v :: vs => if walkStops table v then [v] else v :: visited table vs

/-- What the callback prints on a visit, read off its body: the `color.Red` call
of the branch `err != nil` after `extractFields`, or of the one after
`parseDate`; nothing when it returns before them, adds a Record, or panics. -/
def printedMessage (table : Char → Char) (v : Visit) : Option LogLine :=
  if v.err = none ∧ v.isDir = false ∧ isRelevantFile table v.name = true then
    match extractFields v.name with
    | Outcome.error err => some (LogLine.fileError v.path err)
    | Outcome.ok f =>
      match parseDate f.date with
      | Outcome.error err => some (LogLine.dateError v.path err)
      | _ => none
    | Outcome.panic _ => none
  else none

/-- The Record added for a visit: the Record of the name of a regular file
visited without error. -/
def recordOfVisit (table : Char → Char) (v : Visit) : Option Record :=
  if v.err = none ∧ v.isDir = false then recordOfName table v.name else none

/-- The `w` low-order decimal digits of `u`, most significant first. -/
def digitsFixed : Nat → Nat → List Char
  | 0, _ => []
  | w + 1, u => digitsFixed w (u / 10) ++ [Char.ofNat ('0'.toNat + u % 10)]

/-- A visit for which the specification asks for a message: a regular file that
is relevant and on which `extractFields` fails, or on whose date `parseDate`
fails. A call fails when it does not come back with a value and a nil error. -/
def shouldReport (table : Char → Char) (v : Visit) : Bool :=
  v.err.isNone && !v.isDir && isRelevantFile table v.name
    && match extractFields v.name with
      | Outcome.ok f => !(parseDate f.date).isOk
      | _ => true

/-- The decimal numeral `digits` with zeros in front up to the width `w`. -/
def zeroPad (w : Nat) (digits : List Char) : List Char :=
  List.replicate (w - digits.length) '0' ++ digits

/-- The text `YYYY-MM-DD` of a date: the year as a decimal numeral of at least
four digits (after a minus sign for a year before 0), the month and the day as
numerals of at least two digits, separated by `-`. -/
def dateText (t : Date) : String :=
  ⟨(if t.year < 0 then ['-'] else []) ++ zeroPad 4 (Nat.toDigits 10 t.year.natAbs)
    ++ '-' :: zeroPad 2 (Nat.toDigits 10 t.month) ++ '-' :: zeroPad 2 (Nat.toDigits 10 t.day)⟩

/-! ## The visits of filepath.Walk on a directory tree -/

/-- A directory tree that can be read without error: a regular file, or a
directory with its entries as `readDirNames` lists them. -/
inductive FileTree where
  | file (name : String)
  | dir (name : String) (entries : List FileTree)

/-- The base name of the root of a tree. -/
def FileTree.name : FileTree → String
  | FileTree.file name => name
  | FileTree.dir name _ => name

mutual
/-- The calls of the callback that `filepath.Walk` makes on a tree found at
`path`: the entry itself, then, for a directory, the walks of its entries in
the order listed. `join` is `filepath.Join`. -/
def treeVisits (join : String → String → String) : String → FileTree → List Visit
  | path, FileTree.file name => [{ path := path, name := name, isDir := false, err := none }]
  | path, FileTree.dir name entries =>
    { path := path, name := name, isDir := true, err := none } :: entriesVisits join path entries
/-- The loop `for _, name := range names` of `filepath.Walk` over the entries of
the directory at `path`. -/
def entriesVisits (join : String → String → String) : String → List FileTree → List Visit
  | _, [] => []
  | path, e :: es => treeVisits join (join path e.name) e ++ entriesVisits join path es
end

/-- The order `<` of Go strings: lexicographic on bytes, which on valid UTF-8 is
lexicographic on code points. -/
def lexLt : List Char → List Char → Bool
  | [], [] => false
  | [], _ :: _ => true
  | _ :: _, [] => false
  | a :: as, b :: bs =>
    if a.toNat < b.toNat then true
    else if b.toNat < a.toNat then false
    else lexLt as bs

/-- The names are in strictly increasing order, as `readDirNames` returns them
(it sorts the names of a directory with `sort.Strings`). -/
def increasing : List String → Bool
  | [] => true
  | [_] => true
  | a :: b :: rest => lexLt a.data b.data && increasing (b :: rest)

mutual
/-- Every directory of the tree lists its entries in increasing order of name. -/
def listed : FileTree → Bool
  | FileTree.file _ => true
  | FileTree.dir _ entries => increasing (entries.map FileTree.name) && allListed entries
/-- Every tree of the list is `listed`. -/
def allListed : List FileTree → Bool
  | [] => true
  | e :: es => listed e && allListed es
end

/-- The function `filepath.Join` on a directory path and an entry name, for a
path that `filepath.Clean` leaves as it is. -/
def slashJoin (path name : String) : String := path ++ "/" ++ name

/-- A directory with the two invoices of the specification in two
sub-directories. -/
def treeByMonth : FileTree :=
  FileTree.dir "inbox"
    [FileTree.dir "2024-01" [FileTree.file "rechnung-G1-ShopA-Food-10.00-2024-01-02.pdf"],
     FileTree.dir "2024-02" [FileTree.file "invoice-G1-ShopB-Travel-20.00-2024-02-03.pdf"]]

/-- A directory holding the two invoices of the specification side by side. -/
def treeFlat : FileTree :=
  FileTree.dir "inbox"
    [FileTree.file "invoice-G1-ShopB-Travel-20.00-2024-02-03.pdf",
     FileTree.file "rechnung-G1-ShopA-Food-10.00-2024-01-02.pdf"]

/-! ## Calendar dates, as the specification words them -/

/-- Gregorian leap-year rule: every fourth year, except centuries not divisible
by 400. -/
def gregorianLeapYear (year : Nat) : Bool :=
  decide ((year % 4 = 0 ∧ year % 100 ≠ 0) ∨ year % 400 = 0)

/-- Number of days of month `month` (1 = January) in year `year` of the
Gregorian calendar; 0 for a month outside `1..12`. -/
def daysOfMonth (year month : Nat) : Nat :=
  match month with
  | 1 => 31
  | 2 => if gregorianLeapYear year then 29 else 28
  | 3 => 31
  | 4 => 30
  | 5 => 31
  | 6 => 30
  | 7 => 31
  | 8 => 31
  | 9 => 30
  | 10 => 31
  | 11 => 30
  | 12 => 31
  | _ => 0

/-- An ASCII decimal digit. -/
def isAsciiDigit (c : Char) : Bool := decide ('0' ≤ c ∧ c ≤ '9')

/-- The date written by a string of the shape `YYYY-MM-DD`, when the string is
exactly four digits, `-`, two digits, `-`, two digits. -/
def readYMD (s : String) : Option (Nat × Nat × Nat) :=
  match s.data with
  | [y1, y2, y3, y4, s1, m1, m2, s2, d1, d2] =>
    if isAsciiDigit y1 ∧ isAsciiDigit y2 ∧ isAsciiDigit y3 ∧ isAsciiDigit y4
        ∧ s1 = '-' ∧ isAsciiDigit m1 ∧ isAsciiDigit m2 ∧ s2 = '-'
        ∧ isAsciiDigit d1 ∧ isAsciiDigit d2 then
      some (1000 * digitVal y1 + 100 * digitVal y2 + 10 * digitVal y3 + digitVal y4,
        10 * digitVal m1 + digitVal m2, 10 * digitVal d1 + digitVal d2)
    else none
  | _ => none

/-- A string that is exactly `YYYY-MM-DD` and names a real calendar date: month
in `1..12` and day between 1 and the number of days of that month in that
year. -/
def isCalendarDate (s : String) : Bool :=
  match readYMD s with
  | some (year, month, day) =>
    decide (1 ≤ month ∧ month ≤ 12 ∧ 1 ≤ day ∧ day ≤ daysOfMonth year month)
  | none => false

/-! ## Auxiliary lemmas -/

theorem Outcome.ok_bind {α β : Type} (a : α) (f : α → Outcome β) :
    (Outcome.ok a >>= f) = f a := rfl

theorem Outcome.panic_bind {α β : Type} (m : String) (f : α → Outcome β) :
    (Outcome.panic m >>= f) = Outcome.panic m := rfl

theorem index_of_lt (a : List String) (i : Nat) (h : i < a.length) :
    index a i = Outcome.ok (a.get ⟨i, h⟩) := by
  unfold index
  rw [List.getElem?_eq_getElem h]
  rfl

theorem slice_of_le (a : List String) (lo hi : Nat) (h1 : lo ≤ hi) (h2 : hi ≤ a.length) :
    slice a lo hi = Outcome.ok ((a.drop lo).take (hi - lo)) := by
  unfold slice
  rw [if_pos h2, if_pos h1]

theorem slice_of_gt (a : List String) (lo hi : Nat) (h1 : hi < lo) (h2 : hi ≤ a.length) :
    slice a lo hi =
      Outcome.panic ("slice bounds out of range [" ++ toString lo ++ ":" ++ toString hi ++ "]") := by
  unfold slice
  rw [if_pos h2, if_neg (by omega)]

/-- The function `extractFields` in terms of `tokens` and `stripExt`. -/
theorem extractFields_eq (filename : String) :
    extractFields filename =
      if (tokens filename).length < 6 then
        Outcome.error
          (GoError.notEnoughParts ("file " ++ stripExt filename ++ " does not have enough parts"))
      else
        index (tokens filename) 1 >>= fun group =>
        index (tokens filename) ((tokens filename).length - 4) >>= fun price =>
        index (tokens filename) 2 >>= fun establishment =>
        slice (tokens filename) 3 ((tokens filename).length - 4) >>= fun cat =>
        index (tokens filename) ((tokens filename).length - 3) >>= fun y =>
        index (tokens filename) ((tokens filename).length - 2) >>= fun m =>
        index (tokens filename) ((tokens filename).length - 1) >>= fun d =>
        Outcome.ok
          { group := group, date := y ++ "-" ++ m ++ "-" ++ d, price := price,
            establishment := establishment, category := Join cat "-" } := rfl

/-- With exactly six tokens the length check passes and the slice expression
`parts[3:2]` panics. -/
theorem extractFields_six (filename : String) (h : (tokens filename).length = 6) :
    extractFields filename = Outcome.panic "slice bounds out of range [3:2]" := by
  rw [extractFields_eq, if_neg (by omega)]
  rw [index_of_lt _ 1 (by omega), Outcome.ok_bind, index_of_lt _ _ (by omega), Outcome.ok_bind,
    index_of_lt _ 2 (by omega), Outcome.ok_bind, slice_of_gt _ _ _ (by omega) (by omega),
    Outcome.panic_bind, h]
  rfl

/-- With at least seven tokens every index and slice expression is in range. -/
theorem extractFields_seven (filename : String) (h : 7 ≤ (tokens filename).length) :
    extractFields filename =
      Outcome.ok
        { group := (tokens filename).get ⟨1, by omega⟩,
          date := (tokens filename).get ⟨(tokens filename).length - 3, by omega⟩ ++ "-"
            ++ (tokens filename).get ⟨(tokens filename).length - 2, by omega⟩ ++ "-"
            ++ (tokens filename).get ⟨(tokens filename).length - 1, by omega⟩,
          price := (tokens filename).get ⟨(tokens filename).length - 4, by omega⟩,
          establishment := (tokens filename).get ⟨2, by omega⟩,
          category :=
            Join (((tokens filename).drop 3).take ((tokens filename).length - 4 - 3)) "-" } := by
  rw [extractFields_eq, if_neg (by omega)]
  rw [index_of_lt _ 1 (by omega), Outcome.ok_bind, index_of_lt _ _ (by omega), Outcome.ok_bind,
    index_of_lt _ 2 (by omega), Outcome.ok_bind, slice_of_le _ _ _ (by omega) (by omega),
    Outcome.ok_bind, index_of_lt _ _ (by omega), Outcome.ok_bind, index_of_lt _ _ (by omega),
    Outcome.ok_bind, index_of_lt _ _ (by omega), Outcome.ok_bind]

/-- On a name made of ASCII code points only, `strings.ToLower` does not consult
the Unicode case tables. -/
theorem ToLower_ascii (table : Char → Char) (s : String)
    (h : ∀ c ∈ s.data, c.toNat ≤ 127) : ToLower table s = ToLower id s := by
  unfold ToLower
  congr 1
  apply List.map_congr_left
  intro c hc
  unfold unicodeToLower
  rw [if_pos (h c hc), if_pos (h c hc)]

theorem isRelevantFile_ascii (table : Char → Char) (s : String)
    (h : ∀ c ∈ s.data, c.toNat ≤ 127) : isRelevantFile table s = isRelevantFile id s := by
  unfold isRelevantFile
  rw [ToLower_ascii table s h]

/-- The callback on a regular file visited without error. -/
theorem walkFn_fileVisit (table : Char → Char) (st : ScanState) (path name : String) :
    walkFn table st (fileVisit path name) =
      if isRelevantFile table name = true then
        match extractFields name with
        | Outcome.panic m => Outcome.panic m
        | Outcome.error err =>
          Outcome.ok { st with log := st.log ++ [LogLine.fileError path err] }
        | Outcome.ok f =>
          match parseDate f.date with
          | Outcome.panic m => Outcome.panic m
          | Outcome.error err =>
            Outcome.ok { st with log := st.log ++ [LogLine.dateError path err] }
          | Outcome.ok parsedDate =>
            Outcome.ok
              { st with
                records := st.records ++
                  [{ group := f.group, date := parsedDate, price := f.price,
                     establishment := f.establishment, category := f.category }] }
      else Outcome.ok st := by
  unfold walkFn fileVisit
  cases h : isRelevantFile table name <;> simp

theorem intercalate_go_eq (sep acc b : String) (rest : List String) :
    String.intercalate.go acc sep (b :: rest) = acc ++ sep ++ Join (b :: rest) sep := by
  induction rest generalizing acc b with
  | nil => simp [String.intercalate.go, Join]
  | cons c rest ih =>
    rw [String.intercalate.go, ih]
    simp [Join, String.append_assoc]

/-- The function `strings.Join` puts the separator between consecutive elements. -/
theorem Join_eq_intercalate (l : List String) (sep : String) :
    Join l sep = sep.intercalate l := by
  cases l with
  | nil => rfl
  | cons a rest =>
    cases rest with
    | nil => rfl
    | cons b rest =>
      rw [String.intercalate, intercalate_go_eq]
      simp [Join, String.append_assoc]

/-! ## Claims on extractFields -/

/-- C1: a filename whose extension-stripped name splits on `-` into fewer than 6
tokens makes `extractFields` return the not-enough-parts error, and the walk
callback then returns nil without adding a Record. -/
theorem extractFields_fewer_than_six_tokens (filename : String)
    (h : (tokens filename).length < 6) :
    extractFields filename =
        Outcome.error
          (GoError.notEnoughParts ("file " ++ stripExt filename ++ " does not have enough parts"))
      ∧ ∀ (table : Char → Char) (st : ScanState) (path : String),
          ∃ st1, walkFn table st (fileVisit path filename) = Outcome.ok st1
            ∧ st1.records = st.records := by
  have hx : extractFields filename =
      Outcome.error
        (GoError.notEnoughParts ("file " ++ stripExt filename ++ " does not have enough parts")) := by
    rw [extractFields_eq, if_pos h]
  refine ⟨hx, ?_⟩
  intro table st path
  rw [walkFn_fileVisit, hx]
  by_cases hr : isRelevantFile table filename = true
  · rw [if_pos hr]
    exact ⟨_, rfl, rfl⟩
  · rw [if_neg hr]
    exact ⟨_, rfl, rfl⟩

theorem extractFields_fewer_than_six_tokens_witness :
    (tokens "invoice-G1-ShopA-01-02.pdf").length < 6
      ∧ (extractFields "invoice-G1-ShopA-01-02.pdf" =
          Outcome.error
            (GoError.notEnoughParts
              ("file " ++ stripExt "invoice-G1-ShopA-01-02.pdf" ++ " does not have enough parts"))
        ∧ ∀ (table : Char → Char) (st : ScanState) (path : String),
            ∃ st1, walkFn table st (fileVisit path "invoice-G1-ShopA-01-02.pdf") = Outcome.ok st1
              ∧ st1.records = st.records) :=
  ⟨by decide, extractFields_fewer_than_six_tokens "invoice-G1-ShopA-01-02.pdf" (by decide)⟩

/-- C2 (the code at the failing input): the name `rechnung-A-B-2024-01-02.pdf` has exactly 6
tokens, yet `extractFields` does not succeed on it: it panics. -/
theorem extractFields_six_tokens_not_ok :
    6 ≤ (tokens "rechnung-A-B-2024-01-02.pdf").length
      ∧ ¬ ∃ f, extractFields "rechnung-A-B-2024-01-02.pdf" = Outcome.ok f := by
  refine ⟨by decide, ?_⟩
  rintro ⟨f, hf⟩
  rw [extractFields_six _ (by decide)] at hf
  cases hf

/-- From seven tokens on the fixed positions are all in range: a filename whose
extension-stripped name splits on `-` into n ≥ 7 tokens makes `extractFields` succeed with group = token[1], establishment
= token[2], price = token[n-4] and date = token[n-3] - token[n-2] - token[n-1]. -/
theorem extractFields_positions (filename : String) (h : 7 ≤ (tokens filename).length) :
    ∃ f, extractFields filename = Outcome.ok f
      ∧ (tokens filename)[1]? = some f.group
      ∧ (tokens filename)[2]? = some f.establishment
      ∧ (tokens filename)[(tokens filename).length - 4]? = some f.price
      ∧ ∃ y m d, (tokens filename)[(tokens filename).length - 3]? = some y
          ∧ (tokens filename)[(tokens filename).length - 2]? = some m
          ∧ (tokens filename)[(tokens filename).length - 1]? = some d
          ∧ f.date = y ++ "-" ++ m ++ "-" ++ d := by
  refine ⟨_, extractFields_seven filename h, ?_, ?_, ?_, _, _, _, ?_, ?_, ?_, rfl⟩ <;>
    simp only [List.get_eq_getElem] <;>
    exact List.getElem?_eq_getElem _

theorem extractFields_positions_witness :
    7 ≤ (tokens "rechnung-G1-ShopA-Food-10.00-2024-01-02.pdf").length
      ∧ ∃ f, extractFields "rechnung-G1-ShopA-Food-10.00-2024-01-02.pdf" = Outcome.ok f
        ∧ (tokens "rechnung-G1-ShopA-Food-10.00-2024-01-02.pdf")[1]? = some f.group
        ∧ (tokens "rechnung-G1-ShopA-Food-10.00-2024-01-02.pdf")[2]? = some f.establishment
        ∧ (tokens "rechnung-G1-ShopA-Food-10.00-2024-01-02.pdf")[
            (tokens "rechnung-G1-ShopA-Food-10.00-2024-01-02.pdf").length - 4]? = some f.price
        ∧ ∃ y m d,
            (tokens "rechnung-G1-ShopA-Food-10.00-2024-01-02.pdf")[
              (tokens "rechnung-G1-ShopA-Food-10.00-2024-01-02.pdf").length - 3]? = some y
            ∧ (tokens "rechnung-G1-ShopA-Food-10.00-2024-01-02.pdf")[
              (tokens "rechnung-G1-ShopA-Food-10.00-2024-01-02.pdf").length - 2]? = some m
            ∧ (tokens "rechnung-G1-ShopA-Food-10.00-2024-01-02.pdf")[
              (tokens "rechnung-G1-ShopA-Food-10.00-2024-01-02.pdf").length - 1]? = some d
            ∧ f.date = y ++ "-" ++ m ++ "-" ++ d :=
  ⟨by decide,
    extractFields_positions "rechnung-G1-ShopA-Food-10.00-2024-01-02.pdf" (by decide)⟩

/-- C3 (the code at the failing input): the name `invoice-G2-Cafe-2023-12-31.txt` has exactly
6 tokens and no token strictly between token[2] and token[n-4], yet
`extractFields` returns no category for it, empty or not: it panics. -/
theorem extractFields_six_tokens_no_category :
    (tokens "invoice-G2-Cafe-2023-12-31.txt").length = 6
      ∧ (extractFields "invoice-G2-Cafe-2023-12-31.txt").isPanic = true
      ∧ ¬ ∃ f, extractFields "invoice-G2-Cafe-2023-12-31.txt" = Outcome.ok f
          ∧ f.category = "" := by
  refine ⟨by decide, ?_, ?_⟩
  · rw [extractFields_six _ (by decide)]
    rfl
  · rintro ⟨f, hf, -⟩
    rw [extractFields_six _ (by decide)] at hf
    cases hf

/-- From seven tokens on the slice is in range: for a filename with n ≥ 7 tokens
the category returned by
`extractFields` is the `-`-join of the tokens strictly between token[2] and
token[n-4] (those at positions 3 .. n-5), and is the empty string when there are
none. -/
theorem extractFields_category (filename : String) (h : 7 ≤ (tokens filename).length) :
    ∃ f, extractFields filename = Outcome.ok f
      ∧ f.category =
          "-".intercalate (((tokens filename).take ((tokens filename).length - 4)).drop 3)
      ∧ (((tokens filename).take ((tokens filename).length - 4)).drop 3 = [] →
          f.category = "") := by
  have hc : Join (((tokens filename).drop 3).take ((tokens filename).length - 4 - 3)) "-" =
      "-".intercalate (((tokens filename).take ((tokens filename).length - 4)).drop 3) := by
    rw [Join_eq_intercalate, List.drop_take]
  refine ⟨_, extractFields_seven filename h, hc, ?_⟩
  intro hnil
  show Join (((tokens filename).drop 3).take ((tokens filename).length - 4 - 3)) "-" = ""
  rw [hc, hnil]
  rfl

theorem extractFields_category_witness :
    7 ≤ (tokens "invoice-G1-ShopA-Office-Paper-12.50-2024-03-04.pdf").length
      ∧ ∃ f, extractFields "invoice-G1-ShopA-Office-Paper-12.50-2024-03-04.pdf" = Outcome.ok f
        ∧ f.category =
            "-".intercalate
              (((tokens "invoice-G1-ShopA-Office-Paper-12.50-2024-03-04.pdf").take
                ((tokens "invoice-G1-ShopA-Office-Paper-12.50-2024-03-04.pdf").length - 4)).drop 3)
        ∧ (((tokens "invoice-G1-ShopA-Office-Paper-12.50-2024-03-04.pdf").take
              ((tokens "invoice-G1-ShopA-Office-Paper-12.50-2024-03-04.pdf").length - 4)).drop 3
            = [] → f.category = "") :=
  ⟨by decide,
    extractFields_category "invoice-G1-ShopA-Office-Paper-12.50-2024-03-04.pdf" (by decide)⟩

/-- C4 (the code at the failing input): the name `invoice-G1-ShopA-2024-01-02.pdf`
has 6 tokens, so it passes the length check and `extractFields` panics on the
slice `parts[3:2]`; a scan that visits this file ends in that panic, with no
message printed for the file and the files after it never visited. -/
theorem scan_six_token_name_panics :
    extractFields "invoice-G1-ShopA-2024-01-02.pdf" =
        Outcome.panic "slice bounds out of range [3:2]"
      ∧ ∀ (table : Char → Char) (path : String) (rest : List Visit),
          scanDirectory table (fileVisit path "invoice-G1-ShopA-2024-01-02.pdf" :: rest) =
            { result := Outcome.panic "slice bounds out of range [3:2]", log := [] } := by
  have hx : extractFields "invoice-G1-ShopA-2024-01-02.pdf" =
      Outcome.panic "slice bounds out of range [3:2]" := extractFields_six _ (by decide)
  refine ⟨hx, ?_⟩
  intro table path rest
  have hr : isRelevantFile table "invoice-G1-ShopA-2024-01-02.pdf" = true := by
    rw [isRelevantFile_ascii _ _ (by decide)]
    decide
  unfold scanDirectory walk
  rw [walkFn_fileVisit, if_pos hr, hx]


/-! ## Lemmas on time.Parse -/

theorem isAsciiDigit_iff (c : Char) :
    isAsciiDigit c = true ↔ 48 ≤ c.toNat ∧ c.toNat ≤ 57 := by
  unfold isAsciiDigit
  rw [decide_eq_true_iff]
  simp only [Char.le_def]
  rfl

theorem digit_not_lt_gt (c : Char) :
    (c < '0' ∨ c > '9') ↔ ¬ (isAsciiDigit c = true) := by
  rw [isAsciiDigit_iff]
  simp only [GT.gt, Char.lt_def]
  show (c.toNat < 48 ∨ 57 < c.toNat) ↔ _
  omega

theorem digitVal_lt (c : Char) (h : isAsciiDigit c = true) : digitVal c < 10 := by
  rw [isAsciiDigit_iff] at h
  unfold digitVal
  show c.toNat - 48 < 10
  omega

theorem isDigit_zero (a : Char) (l : List Char) : isDigit (a :: l) 0 = isAsciiDigit a := by
  simp [isDigit, isAsciiDigit]

theorem isDigit_one (a b : Char) (l : List Char) : isDigit (a :: b :: l) 1 = isAsciiDigit b := by
  simp [isDigit, isAsciiDigit]

theorem skip_dash (v w : List Char) : skip v ['-'] = some w ↔ v = '-' :: w := by
  cases v with
  | nil => simp [skip]
  | cons a v =>
    simp only [skip]
    by_cases h : a = '-'
    · subst h
      cases v <;> simp [skip]
    · simp [h]

theorem getnum_fixed (v rest : List Char) (n : Nat) :
    getnum v true = some (n, rest) ↔
      ∃ a b, v = a :: b :: rest ∧ isAsciiDigit a = true ∧ isAsciiDigit b = true
        ∧ n = digitVal a * 10 + digitVal b := by
  unfold getnum
  cases v with
  | nil => simp [isDigit]
  | cons a v =>
    cases v with
    | nil => simp [isDigit]
    | cons b v =>
      simp only [isDigit_zero, isDigit_one]
      by_cases ha : isAsciiDigit a = true
      · by_cases hb : isAsciiDigit b = true
        · simp only [ha, hb, Bool.not_true, Bool.false_eq_true, if_false, List.getD_cons_zero,
            List.getD_cons_succ, List.drop_succ_cons, List.drop_zero, Option.some.injEq,
            Prod.mk.injEq, List.cons.injEq]
          constructor
          · rintro ⟨rfl, rfl⟩
            exact ⟨a, b, ⟨rfl, rfl, rfl⟩, ha, hb, rfl⟩
          · rintro ⟨a1, b1, ⟨rfl, rfl, rfl⟩, -, -, rfl⟩
            exact ⟨rfl, rfl⟩
        · simp only [ha, hb, Bool.not_true, Bool.false_eq_true, if_false, Bool.not_false,
            if_true, List.cons.injEq]
          constructor
          · intro h
            cases h
          · rintro ⟨a1, b1, ⟨rfl, rfl, rfl⟩, -, h, -⟩
            exact absurd h hb
      · simp only [ha, Bool.not_false, if_true, List.cons.injEq]
        constructor
        · intro h
          cases h
        · rintro ⟨a1, b1, ⟨rfl, rfl, rfl⟩, h, -⟩
          exact absurd h ha

theorem leadingInt_digit (c : Char) (cs : List Char) (x : Nat) (hc : isAsciiDigit c = true)
    (hx : x ≤ 1000) : leadingInt (c :: cs) x = leadingInt cs (x * 10 + digitVal c) := by
  have hd := digitVal_lt c hc
  rw [leadingInt, if_neg ((digit_not_lt_gt c).not.mpr (not_not.mpr hc)),
    if_neg (by norm_num; omega), if_neg (by norm_num; omega)]

theorem leadingInt_not_digit (c : Char) (cs : List Char) (x : Nat)
    (hc : ¬ isAsciiDigit c = true) : leadingInt (c :: cs) x = some (x, c :: cs) := by
  rw [leadingInt, if_pos ((digit_not_lt_gt c).mpr hc)]

theorem atoi_four (a b c d : Char) (y : Int) (ha : isAsciiDigit a = true) :
    atoi [a, b, c, d] = some y ↔
      isAsciiDigit b = true ∧ isAsciiDigit c = true ∧ isAsciiDigit d = true
        ∧ y = ((1000 * digitVal a + 100 * digitVal b + 10 * digitVal c + digitVal d : Nat) : Int) := by
  have hm : ¬ (a = '-') := by
    rintro rfl
    exact absurd ha (by decide)
  have hp : ¬ (a = '+') := by
    rintro rfl
    exact absurd ha (by decide)
  have hda := digitVal_lt a ha
  unfold atoi
  simp only [List.head?_cons, Option.some.injEq, hm, hp, or_self, if_false, decide_False]
  rw [leadingInt_digit a _ 0 ha (by omega)]
  by_cases hb : isAsciiDigit b = true
  · have hdb := digitVal_lt b hb
    rw [leadingInt_digit b _ _ hb (by omega)]
    by_cases hc : isAsciiDigit c = true
    · have hdc := digitVal_lt c hc
      rw [leadingInt_digit c _ _ hc (by omega)]
      by_cases hd : isAsciiDigit d = true
      · rw [leadingInt_digit d _ _ hd (by omega)]
        simp only [leadingInt, Bool.false_eq_true, if_false, Option.some.injEq, hb, hc, hd,
          true_and]
        constructor
        · rintro rfl
          push_cast
          ring
        · rintro rfl
          push_cast
          ring
      · rw [leadingInt_not_digit d _ _ hd]
        simp [hd]
    · rw [leadingInt_not_digit c _ _ hc]
      simp [hc]
  · rw [leadingInt_not_digit b _ _ hb]
    simp [hb]

/-- The digits of a date string read as numbers. -/
theorem timeParse_ok_shape (s : String) (t : Date) (h : timeParse s = Except.ok t) :
    ∃ y1 y2 y3 y4 m1 m2 d1 d2,
      s.data = [y1, y2, y3, y4, '-', m1, m2, '-', d1, d2]
        ∧ isAsciiDigit y1 = true ∧ isAsciiDigit y2 = true ∧ isAsciiDigit y3 = true
        ∧ isAsciiDigit y4 = true ∧ isAsciiDigit m1 = true ∧ isAsciiDigit m2 = true
        ∧ isAsciiDigit d1 = true ∧ isAsciiDigit d2 = true
        ∧ t.year = ((1000 * digitVal y1 + 100 * digitVal y2 + 10 * digitVal y3 + digitVal y4 : Nat) : Int)
        ∧ t.month = 10 * digitVal m1 + digitVal m2
        ∧ t.day = 10 * digitVal d1 + digitVal d2
        ∧ 1 ≤ t.month ∧ t.month ≤ 12 ∧ 1 ≤ t.day ∧ t.day ≤ daysIn t.month t.year := by
  unfold timeParse at h
  simp only [] at h
  split at h
  · cases h
  · rename_i h0
    split at h
    · cases h
    · rename_i year hy
      split at h
      · cases h
      · rename_i v1 hv1
        split at h
        · cases h
        · rename_i month rest hm
          split at h
          · cases h
          · rename_i hmr
            split at h
            · cases h
            · rename_i v2 hv2
              split at h
              · cases h
              · rename_i day rest2 hd
                split at h
                · cases h
                · rename_i hlen
                  split at h
                  · cases h
                  · rename_i hdr
                    cases h
                    obtain ⟨l⟩ := s
                    simp only [Bool.or_eq_true, decide_eq_true_eq, Bool.not_eq_true', not_or,
                      not_lt, Bool.not_eq_false] at h0
                    obtain ⟨hl, hd0⟩ := h0
                    match l, hl, hd0, hy, hv1 with
                    | y1 :: y2 :: y3 :: y4 :: tail, _, hd0, hy, hv1 =>
                      rw [isDigit_zero] at hd0
                      simp only [List.take_succ_cons, List.take_zero] at hy
                      simp only [List.drop_succ_cons, List.drop_zero] at hv1
                      rw [atoi_four _ _ _ _ _ hd0] at hy
                      obtain ⟨h2, h3, h4, rfl⟩ := hy
                      rw [skip_dash] at hv1 hv2
                      rw [getnum_fixed] at hm hd
                      obtain ⟨m1, m2, rfl, hm1, hm2, rfl⟩ := hm
                      obtain ⟨d1, d2, rfl, hd1, hd2, rfl⟩ := hd
                      have hr2 : rest2 = [] := List.length_eq_zero.mp (not_not.mp hlen)
                      subst hr2 hv2 hv1
                      refine ⟨y1, y2, y3, y4, m1, m2, d1, d2, rfl, hd0, h2, h3, h4, hm1, hm2, hd1,
                        hd2, rfl, ?_, ?_, ?_, ?_, ?_, ?_⟩ <;> simp only [] <;> omega

theorem timeParse_of_shape (y1 y2 y3 y4 m1 m2 d1 d2 : Char)
    (h1 : isAsciiDigit y1 = true) (h2 : isAsciiDigit y2 = true) (h3 : isAsciiDigit y3 = true)
    (h4 : isAsciiDigit y4 = true) (h5 : isAsciiDigit m1 = true) (h6 : isAsciiDigit m2 = true)
    (h7 : isAsciiDigit d1 = true) (h8 : isAsciiDigit d2 = true)
    (hm : 1 ≤ 10 * digitVal m1 + digitVal m2 ∧ 10 * digitVal m1 + digitVal m2 ≤ 12)
    (hd : 1 ≤ 10 * digitVal d1 + digitVal d2
      ∧ 10 * digitVal d1 + digitVal d2 ≤
          daysIn (10 * digitVal m1 + digitVal m2)
            ((1000 * digitVal y1 + 100 * digitVal y2 + 10 * digitVal y3 + digitVal y4 : Nat) : Int)) :
    timeParse ⟨[y1, y2, y3, y4, '-', m1, m2, '-', d1, d2]⟩ =
      Except.ok
        { year := ((1000 * digitVal y1 + 100 * digitVal y2 + 10 * digitVal y3 + digitVal y4 : Nat) : Int),
          month := 10 * digitVal m1 + digitVal m2, day := 10 * digitVal d1 + digitVal d2 } := by
  have hy := (atoi_four y1 y2 y3 y4 _ h1).mpr ⟨h2, h3, h4, rfl⟩
  have hs1 : skip ['-', m1, m2, '-', d1, d2] ['-'] = some [m1, m2, '-', d1, d2] :=
    (skip_dash _ _).mpr rfl
  have hg1 : getnum [m1, m2, '-', d1, d2] true
      = some (10 * digitVal m1 + digitVal m2, ['-', d1, d2]) :=
    (getnum_fixed _ _ _).mpr ⟨m1, m2, rfl, h5, h6, by omega⟩
  have hs2 : skip ['-', d1, d2] ['-'] = some [d1, d2] := (skip_dash _ _).mpr rfl
  have hg2 : getnum [d1, d2] true = some (10 * digitVal d1 + digitVal d2, []) :=
    (getnum_fixed _ _ _).mpr ⟨d1, d2, rfl, h7, h8, by omega⟩
  unfold timeParse
  simp only [List.length_cons, List.length_nil, isDigit_zero, h1, List.take_succ_cons,
    List.take_zero, List.drop_succ_cons, List.drop_zero, hy, hs1, hg1, hs2, hg2]
  rw [if_neg (by simp), if_neg (by omega), if_neg (by simp), if_neg (by omega)]

theorem isLeap_eq (year : Nat) : isLeap (year : Int) = gregorianLeapYear year := by
  unfold isLeap gregorianLeapYear
  rw [Bool.eq_iff_iff]
  simp only [Bool.and_eq_true, Bool.or_eq_true, beq_iff_eq, bne_iff_ne, decide_eq_true_eq]
  omega

theorem daysIn_eq (year month : Nat) (h1 : 1 ≤ month) (h2 : month ≤ 12) :
    daysIn month (year : Int) = daysOfMonth year month := by
  unfold daysIn
  rw [isLeap_eq]
  interval_cases month <;> simp [daysOfMonth, daysBefore]

/-- What `isCalendarDate` says about the bytes of the string. -/
theorem isCalendarDate_iff (s : String) :
    isCalendarDate s = true ↔
      ∃ y1 y2 y3 y4 m1 m2 d1 d2,
        s.data = [y1, y2, y3, y4, '-', m1, m2, '-', d1, d2]
          ∧ isAsciiDigit y1 = true ∧ isAsciiDigit y2 = true ∧ isAsciiDigit y3 = true
          ∧ isAsciiDigit y4 = true ∧ isAsciiDigit m1 = true ∧ isAsciiDigit m2 = true
          ∧ isAsciiDigit d1 = true ∧ isAsciiDigit d2 = true
          ∧ 1 ≤ 10 * digitVal m1 + digitVal m2 ∧ 10 * digitVal m1 + digitVal m2 ≤ 12
          ∧ 1 ≤ 10 * digitVal d1 + digitVal d2
          ∧ 10 * digitVal d1 + digitVal d2 ≤
              daysOfMonth (1000 * digitVal y1 + 100 * digitVal y2 + 10 * digitVal y3 + digitVal y4)
                (10 * digitVal m1 + digitVal m2) := by
  obtain ⟨l⟩ := s
  unfold isCalendarDate readYMD
  constructor
  · intro h
    split at h
    · rename_i year month day hr
      split at hr
      · rename_i y1 y2 y3 y4 s1 m1 m2 s2 d1 d2 hl
        split at hr
        · rename_i hc
          obtain ⟨h1, h2, h3, h4, rfl, h5, h6, rfl, h7, h8⟩ := hc
          simp only [Option.some.injEq, Prod.mk.injEq] at hr
          obtain ⟨rfl, rfl, rfl⟩ := hr
          simp only [decide_eq_true_eq] at h
          simp only [] at hl
          exact ⟨y1, y2, y3, y4, m1, m2, d1, d2, hl, h1, h2, h3, h4, h5, h6, h7, h8, h⟩
        · cases hr
      · cases hr
    · cases h
  · rintro ⟨y1, y2, y3, y4, m1, m2, d1, d2, hl, h1, h2, h3, h4, h5, h6, h7, h8, h⟩
    simp only [] at hl
    subst hl
    simp only [h1, h2, h3, h4, h5, h6, h7, h8, and_self, if_true, decide_eq_true_eq]
    exact h

/-! ## Claims on parseDate -/

/-- C5: `parseDate` succeeds exactly on the strings made of four digits, `-`,
two digits, `-`, two digits whose month is in 1..12 and whose day lies between
1 and the number of days of that month in that year (Gregorian leap-year rule);
on every other string it returns an invalid-date error. -/
theorem parseDate_ok_iff_calendar_date (s : String) :
    ((∃ t, parseDate s = Outcome.ok t) ↔ isCalendarDate s = true)
      ∧ (isCalendarDate s = false →
          ∃ err, parseDate s = Outcome.error (GoError.invalidDate err)) := by
  have hiff : (∃ t, parseDate s = Outcome.ok t) ↔ isCalendarDate s = true := by
    rw [isCalendarDate_iff]
    constructor
    · rintro ⟨t, ht⟩
      have hp : timeParse s = Except.ok t := by
        unfold parseDate at ht
        split at ht
        · cases ht
        · rename_i t1 h1
          cases ht
          exact h1
      obtain ⟨y1, y2, y3, y4, m1, m2, d1, d2, hl, h1, h2, h3, h4, h5, h6, h7, h8, hy, hm, hd,
        hm1, hm2, hd1, hd2⟩ := timeParse_ok_shape s t hp
      rw [hy, daysIn_eq _ _ hm1 hm2, hm, hd] at hd2
      rw [hm] at hm1 hm2
      rw [hd] at hd1
      exact ⟨y1, y2, y3, y4, m1, m2, d1, d2, hl, h1, h2, h3, h4, h5, h6, h7, h8, hm1, hm2, hd1,
        hd2⟩
    · rintro ⟨y1, y2, y3, y4, m1, m2, d1, d2, hl, h1, h2, h3, h4, h5, h6, h7, h8, hm1, hm2, hd1,
        hd2⟩
      obtain ⟨l⟩ := s
      simp only [] at hl
      subst hl
      rw [← daysIn_eq _ _ hm1 hm2] at hd2
      have hp := timeParse_of_shape y1 y2 y3 y4 m1 m2 d1 d2 h1 h2 h3 h4 h5 h6 h7 h8 ⟨hm1, hm2⟩
        ⟨hd1, hd2⟩
      exact ⟨_, by unfold parseDate; rw [hp]⟩
  refine ⟨hiff, ?_⟩
  intro hn
  cases hp : parseDate s with
  | ok t =>
    rw [hiff.mp ⟨t, hp⟩] at hn
    cases hn
  | error e =>
    unfold parseDate at hp
    split at hp
    · rename_i err _
      exact ⟨err, hp.symm ▸ rfl⟩
    · cases hp
  | panic m =>
    unfold parseDate at hp
    split at hp <;> cases hp


/-- The rejected strings named by the specification: a date that does not exist
(also the century rule: 1900 is no leap year), a wrong digit count, a wrong
separator, trailing text; and the accepted leap days next to them. -/
theorem parseDate_examples :
    (parseDate "2023-02-29").isError = true
      ∧ (parseDate "1900-02-29").isError = true
      ∧ (parseDate "2024-1-02").isError = true
      ∧ (parseDate "24-01-02").isError = true
      ∧ (parseDate "2024/01/02").isError = true
      ∧ (parseDate "2024-01-02 ").isError = true
      ∧ (parseDate "2024-13-01").isError = true
      ∧ (parseDate "2024-04-31").isError = true
      ∧ parseDate "2024-02-29" = Outcome.ok { year := 2024, month := 2, day := 29 }
      ∧ parseDate "2000-02-29" = Outcome.ok { year := 2000, month := 2, day := 29 } := by
  decide

/-! ## Claims on isRelevantFile -/

theorem containsLoop_iff (substr l : List Char) :
    containsLoop substr l = true ↔ List.IsInfix substr l := by
  induction l with
  | nil =>
    rw [containsLoop, List.isPrefixOf_iff_prefix, List.prefix_nil, List.infix_nil]
  | cons c cs ih =>
    rw [containsLoop, Bool.or_eq_true, List.isPrefixOf_iff_prefix, ih, List.infix_cons_iff]

/-- C6: `isRelevantFile` is true exactly when the lowercased name contains
`invoice` or `rechnung` as a substring; it is true for
`Invoice-A-B-C-10-2024-01-02.pdf` and false for `summary.pdf`. -/
theorem isRelevantFile_iff_contains_keyword (table : Char → Char) :
    (∀ s : String,
        isRelevantFile table s = true ↔
          (List.IsInfix "invoice".data (ToLower table s).data
            ∨ List.IsInfix "rechnung".data (ToLower table s).data))
      ∧ isRelevantFile table "Invoice-A-B-C-10-2024-01-02.pdf" = true
      ∧ isRelevantFile table "summary.pdf" = false := by
  refine ⟨?_, ?_, ?_⟩
  · intro s
    unfold isRelevantFile Contains
    rw [Bool.or_eq_true, containsLoop_iff, containsLoop_iff]
    exact Or.comm
  · rw [isRelevantFile_ascii _ _ (by decide)]
    decide
  · rw [isRelevantFile_ascii _ _ (by decide)]
    decide

/-! ## Lemmas on the report -/

theorem join_foldl_append (init : String) (l : List String) :
    l.foldl (fun acc x => acc ++ x) init = init ++ String.join l := by
  unfold String.join
  induction l generalizing init with
  | nil => simp
  | cons a l ih =>
    rw [List.foldl_cons, ih, List.foldl_cons, ih ("" ++ a)]
    simp [String.append_assoc]

theorem join_cons_eq (a : String) (l : List String) :
    String.join (a :: l) = a ++ String.join l := by
  have h := join_foldl_append "" (a :: l)
  rw [List.foldl_cons, join_foldl_append] at h
  simpa using h.symm

theorem foldl_lines (init : String) (rs : List Record) :
    rs.foldl (fun report record => report ++ recordLine record) init =
      init ++ String.join (rs.map recordLine) := by
  induction rs generalizing init with
  | nil => simp [String.join]
  | cons r rs ih =>
    rw [List.foldl_cons, ih, List.map_cons, join_cons_eq, String.append_assoc]

theorem reportStep_eq (report : String) (e : String × List Record) :
    reportStep report e = report ++ groupBlock e.1 e.2 := by
  unfold reportStep groupBlock
  simp only [foldl_lines]
  have : (fun record : Record =>
      formatDate record.date ++ "\t" ++ record.price ++ "\t" ++ record.establishment ++ "\t"
        ++ record.category ++ "\n") = recordLine := rfl
  rw [this]
  simp [String.append_assoc]

theorem foldl_reportStep (init : String) (m : List (String × List Record)) :
    m.foldl reportStep init = init ++ String.join (m.map fun e => groupBlock e.1 e.2) := by
  induction m generalizing init with
  | nil => simp [String.join]
  | cons e m ih =>
    rw [List.foldl_cons, ih, reportStep_eq, List.map_cons, join_cons_eq,
      String.append_assoc]

theorem generateReport_eq (order : MapOrder) (rs : List Record) :
    generateReport order rs =
      String.join ((order.iterate (buildGroups rs)).map fun e => groupBlock e.1 e.2) := by
  unfold generateReport
  rw [foldl_reportStep]
  simp

theorem groupKeys_snoc (rs : List Record) (r : Record) :
    groupKeys (rs ++ [r]) =
      if r.group ∈ groupKeys rs then groupKeys rs else groupKeys rs ++ [r.group] := by
  unfold groupKeys
  rw [List.foldl_append]
  rfl

theorem buildGroups_snoc (rs : List Record) (r : Record) :
    buildGroups (rs ++ [r]) = mapAppend (buildGroups rs) r := by
  unfold buildGroups
  rw [List.foldl_append]
  rfl

theorem groupKeys_nodup (rs : List Record) : (groupKeys rs).Nodup := by
  induction rs using List.reverseRecOn with
  | nil => simp [groupKeys]
  | append_singleton rs r ih =>
    rw [groupKeys_snoc]
    by_cases h : r.group ∈ groupKeys rs
    · rw [if_pos h]
      exact ih
    · rw [if_neg h]
      exact List.Nodup.append ih (List.nodup_singleton _) (by simpa using h)

theorem mem_groupKeys (rs : List Record) (g : String) :
    g ∈ groupKeys rs ↔ ∃ r ∈ rs, r.group = g := by
  induction rs using List.reverseRecOn with
  | nil => simp [groupKeys]
  | append_singleton rs r ih =>
    rw [groupKeys_snoc]
    by_cases h : r.group ∈ groupKeys rs
    · rw [if_pos h, ih]
      constructor
      · rintro ⟨x, hx, rfl⟩
        exact ⟨x, by simp [hx], rfl⟩
      · rintro ⟨x, hx, rfl⟩
        rcases List.mem_append.mp hx with hx | hx
        · exact ⟨x, hx, rfl⟩
        · rw [List.mem_singleton] at hx
          subst hx
          exact ih.mp h
    · rw [if_neg h, List.mem_append, ih, List.mem_singleton]
      constructor
      · rintro (⟨x, hx, rfl⟩ | rfl)
        · exact ⟨x, by simp [hx], rfl⟩
        · exact ⟨r, by simp, rfl⟩
      · rintro ⟨x, hx, rfl⟩
        rcases List.mem_append.mp hx with hx | hx
        · exact Or.inl ⟨x, hx, rfl⟩
        · rw [List.mem_singleton] at hx
          subst hx
          exact Or.inr rfl

theorem recordsOfGroup_snoc (g : String) (rs : List Record) (r : Record) :
    recordsOfGroup g (rs ++ [r]) =
      if g = r.group then recordsOfGroup g rs ++ [r] else recordsOfGroup g rs := by
  unfold recordsOfGroup
  rw [List.filter_append]
  by_cases h : g = r.group
  · rw [if_pos h]
    simp [h]
  · rw [if_neg h]
    have : ¬ r.group = g := fun h1 => h h1.symm
    simp [this]

theorem recordsOfGroup_eq_nil (g : String) (rs : List Record) (h : g ∉ groupKeys rs) :
    recordsOfGroup g rs = [] := by
  unfold recordsOfGroup
  rw [List.filter_eq_nil_iff]
  intro r hr hg
  exact h ((mem_groupKeys rs g).mpr ⟨r, hr, by simpa using hg⟩)

/-- Effect of `mapAppend` on a map given by its key list and a value function. -/
theorem mapAppend_map (ks : List String) (f : String → List Record) (r : Record)
    (hnd : ks.Nodup) (hf : r.group ∉ ks → f r.group = []) :
    mapAppend (ks.map fun k => (k, f k)) r =
      (if r.group ∈ ks then ks else ks ++ [r.group]).map
        fun k => (k, if k = r.group then f k ++ [r] else f k) := by
  induction ks with
  | nil =>
    simp only [List.map_nil, mapAppend, List.not_mem_nil, if_false, List.nil_append,
      List.map_cons, if_true]
    rw [hf (by simp)]
    rfl
  | cons k ks ih =>
    rw [List.nodup_cons] at hnd
    rw [List.map_cons, mapAppend]
    by_cases hk : k = r.group
    · rw [if_pos hk, if_pos (by simp [hk]), List.map_cons, if_pos hk]
      congr 1
      apply List.map_congr_left
      intro k1 hk1
      have : ¬ k1 = r.group := by
        rintro rfl
        exact hnd.1 (hk ▸ hk1)
      rw [if_neg this]
    · rw [if_neg hk, ih hnd.2 (fun h => hf (by
        intro hmem
        rcases List.mem_cons.mp hmem with h1 | h1
        · exact hk h1.symm
        · exact h h1))]
      have hiff : r.group ∈ k :: ks ↔ r.group ∈ ks := by
        rw [List.mem_cons]
        constructor
        · rintro (h1 | h1)
          · exact absurd h1.symm hk
          · exact h1
        · exact Or.inr
      by_cases hm : r.group ∈ ks
      · rw [if_pos hm, if_pos (hiff.mpr hm), List.map_cons, if_neg hk]
      · rw [if_neg hm, if_neg (fun h => hm (hiff.mp h)), List.cons_append, List.map_cons,
          if_neg hk]

/-- The map built by the first loop of `generateReport`: one entry per distinct
group name, holding the records of that group in input order. -/
theorem buildGroups_eq (rs : List Record) :
    buildGroups rs = (groupKeys rs).map fun k => (k, recordsOfGroup k rs) := by
  induction rs using List.reverseRecOn with
  | nil => rfl
  | append_singleton rs r ih =>
    rw [buildGroups_snoc, ih,
      mapAppend_map _ _ r (groupKeys_nodup rs) (recordsOfGroup_eq_nil _ rs), groupKeys_snoc]
    apply List.map_congr_left
    intro k _
    rw [recordsOfGroup_snoc]

theorem groupKeys_same_group (g : String) (rs : List Record) (hne : rs ≠ [])
    (hg : ∀ r ∈ rs, r.group = g) : groupKeys rs = [g] := by
  have hnd := groupKeys_nodup rs
  have hmem := mem_groupKeys rs
  have hin : g ∈ groupKeys rs := by
    obtain ⟨r, hr⟩ := List.exists_mem_of_ne_nil rs hne
    exact (hmem g).mpr ⟨r, hr, hg r hr⟩
  have hall : ∀ k ∈ groupKeys rs, k = g := by
    intro k hk
    obtain ⟨r, hr, rfl⟩ := (hmem k).mp hk
    exact hg r hr
  match hks : groupKeys rs, hnd, hin, hall with
  | [], _, hin, _ => cases hin
  | [a], _, _, hall => rw [hall a (by simp)]
  | a :: b :: l, hnd, _, hall =>
    have ha := hall a (by simp)
    have hb := hall b (by simp)
    rw [ha, hb] at hnd
    simp at hnd

theorem recordsOfGroup_same_group (g : String) (rs : List Record)
    (hg : ∀ r ∈ rs, r.group = g) : recordsOfGroup g rs = rs := by
  unfold recordsOfGroup
  rw [List.filter_eq_self]
  intro r hr
  simpa using hg r hr

/-- The report of a non-empty list of records of one group is that group's
block, whatever the map iteration order. -/
theorem generateReport_same_group (order : MapOrder) (g : String) (rs : List Record)
    (hne : rs ≠ []) (hg : ∀ r ∈ rs, r.group = g) :
    generateReport order rs = groupBlock g rs := by
  rw [generateReport_eq, buildGroups_eq, groupKeys_same_group g rs hne hg]
  simp only [List.map_cons, List.map_nil]
  rw [recordsOfGroup_same_group g rs hg]
  have hp := order.perm [(g, rs)]
  rw [List.perm_singleton] at hp
  rw [hp]
  simp [String.join]

theorem generateReport_nil (order : MapOrder) : generateReport order [] = "" := by
  rw [generateReport_eq]
  have hp := order.perm (buildGroups [])
  have hb : buildGroups [] = [] := rfl
  rw [hb, List.perm_nil] at hp
  rw [hb, hp]
  rfl

/-! ## The date column -/

theorem digitChar_of_lt_ten (d : Nat) (h : d < 10) :
    Nat.digitChar d = Char.ofNat ('0'.toNat + d) := by
  interval_cases d <;> rfl

/-- The digit loop of `appendInt` writes the decimal numeral. -/
theorem toDigitsCore_eq_decimal (fuel n : Nat) (acc : List Char) :
    Nat.toDigitsCore 10 fuel n acc = decimal fuel n ++ acc := by
  induction fuel generalizing n acc with
  | zero => rfl
  | succ fuel ih =>
    rw [Nat.toDigitsCore, decimal]
    rw [digitChar_of_lt_ten _ (Nat.mod_lt n (by decide))]
    by_cases h : n < 10
    · rw [if_pos ((Nat.div_eq_zero_iff (by decide)).mpr h), if_pos h, Nat.mod_eq_of_lt h]
      rfl
    · rw [if_neg (fun h0 => h ((Nat.div_eq_zero_iff (by decide)).mp h0)), if_neg h, ih]
      simp

theorem toDigits_eq_decimal (n : Nat) : Nat.toDigits 10 n = decimal (n + 1) n := by
  rw [Nat.toDigits, toDigitsCore_eq_decimal, List.append_nil]

theorem appendInt_eq_zeroPad (x : Int) (w : Nat) :
    appendInt x w =
      ⟨(if x < 0 then ['-'] else []) ++ zeroPad w (Nat.toDigits 10 x.natAbs)⟩ := by
  unfold appendInt zeroPad
  simp only [toDigits_eq_decimal, List.append_assoc]

/-! ## Claims on generateReport -/

/-- C7: for a non-empty list of Records that all share the group g,
`generateReport` returns g and a newline, then for each record in input order
its date (YYYY-MM-DD), price, establishment and category separated by tabs and
followed by a newline, then one more newline; for the empty list it returns the
empty string. -/
theorem generateReport_single_group (order : MapOrder) (g : String) (rs : List Record)
    (hne : rs ≠ []) (hg : ∀ r ∈ rs, r.group = g) :
    generateReport order rs =
        g ++ "\n"
          ++ String.join (rs.map fun r =>
              dateText r.date ++ "\t" ++ r.price ++ "\t" ++ r.establishment ++ "\t"
                ++ r.category ++ "\n")
          ++ "\n"
      ∧ generateReport order [] = "" := by
  have hfmt : ∀ t : Date, formatDate t = dateText t := by
    intro t
    unfold formatDate dateText
    rw [appendInt_eq_zeroPad, appendInt_eq_zeroPad, appendInt_eq_zeroPad]
    have hm : ¬ ((t.month : Int) < 0) := by omega
    have hd : ¬ ((t.day : Int) < 0) := by omega
    rw [if_neg hm, if_neg hd, Int.natAbs_ofNat, Int.natAbs_ofNat]
    apply String.ext
    simp [String.data_append]
  refine ⟨?_, generateReport_nil order⟩
  rw [generateReport_same_group order g rs hne hg]
  unfold groupBlock
  simp only [hfmt]

/-- C8: the report of any list of Records is the concatenation, over an
ordering of its distinct group names in which each name occurs once, of the
reports of the order-preserving sub-lists of the records of each group; each of
these is the group's block: header, one line per record in input order, blank
line. -/
theorem generateReport_concat_of_groups (order sub : MapOrder) (rs : List Record) :
    ∃ names : List String,
      names.Nodup
        ∧ (∀ g, g ∈ names ↔ ∃ r ∈ rs, r.group = g)
        ∧ generateReport order rs =
            String.join (names.map fun g => generateReport sub (recordsOfGroup g rs))
        ∧ generateReport order rs =
            String.join (names.map fun g => groupBlock g (recordsOfGroup g rs)) := by
  have hperm : ((order.iterate (buildGroups rs)).map Prod.fst).Perm (groupKeys rs) := by
    have h := (order.perm (buildGroups rs)).map Prod.fst
    have hk : (buildGroups rs).map Prod.fst = groupKeys rs := by
      rw [buildGroups_eq, List.map_map]
      exact List.map_id _
    rw [hk] at h
    exact h
  have hmem : ∀ g, g ∈ (order.iterate (buildGroups rs)).map Prod.fst ↔ ∃ r ∈ rs, r.group = g :=
    fun g => (hperm.mem_iff).trans (mem_groupKeys rs g)
  have hblocks : generateReport order rs =
      String.join (((order.iterate (buildGroups rs)).map Prod.fst).map
        fun g => groupBlock g (recordsOfGroup g rs)) := by
    rw [generateReport_eq, List.map_map]
    congr 1
    apply List.map_congr_left
    intro e he
    have he1 : e ∈ buildGroups rs := (order.perm _).mem_iff.mp he
    rw [buildGroups_eq, List.mem_map] at he1
    obtain ⟨k, _, rfl⟩ := he1
    rfl
  refine ⟨(order.iterate (buildGroups rs)).map Prod.fst, hperm.nodup_iff.mpr (groupKeys_nodup rs),
    hmem, ?_, hblocks⟩
  rw [hblocks]
  congr 1
  apply List.map_congr_left
  intro g hg
  obtain ⟨r, hr, hrg⟩ := (hmem g).mp hg
  have hne : recordsOfGroup g rs ≠ [] := by
    intro hnil
    have : r ∈ recordsOfGroup g rs := by
      unfold recordsOfGroup
      rw [List.mem_filter]
      exact ⟨hr, by simpa using hrg⟩
    rw [hnil] at this
    cases this
  have hall : ∀ x ∈ recordsOfGroup g rs, x.group = g := by
    intro x hx
    unfold recordsOfGroup at hx
    rw [List.mem_filter] at hx
    simpa using hx.2
  rw [generateReport_same_group sub g _ hne hall]

theorem generateReport_single_group_witness :
    [recordFood, recordTravel] ≠ []
      ∧ (∀ r ∈ [recordFood, recordTravel], r.group = "G1")
      ∧ (generateReport insertionOrder [recordFood, recordTravel] =
          "G1" ++ "\n"
            ++ String.join
              ([recordFood, recordTravel].map fun r =>
                dateText r.date ++ "\t" ++ r.price ++ "\t" ++ r.establishment ++ "\t"
                  ++ r.category ++ "\n")
            ++ "\n"
        ∧ generateReport insertionOrder [] = "")
      ∧ generateReport insertionOrder [recordFood, recordTravel] =
          "G1\n2024-01-02\t10.00\tShopA\tFood\n2024-02-03\t20.00\tShopB\tTravel\n\n"
      ∧ dateText recordFood.date = "2024-01-02" :=
  ⟨by decide, by decide,
    generateReport_single_group insertionOrder "G1" [recordFood, recordTravel] (by decide)
      (by decide),
    by decide, by decide⟩

/-! ## Claims on scanDirectory -/

/-- The callback on a directory visited without error. -/
theorem walkFn_dir (table : Char → Char) (st : ScanState) (path name : String) :
    walkFn table st { path := path, name := name, isDir := true, err := none } = Outcome.ok st := by
  unfold walkFn
  simp

theorem parseDate_not_panic (s m : String) : parseDate s ≠ Outcome.panic m := by
  unfold parseDate
  split <;> exact fun h => Outcome.noConfusion h

/-- Away from the names on which `extractFields` panics, the walk over regular
files visited without error appends to the records, in visitation order, the
Record of every name that passes the filter, `extractFields` and `parseDate`. -/
theorem walk_files_of_no_panic (table : Char → Char) (visits : List Visit)
    (hfile : ∀ v ∈ visits, v.isDir = false ∧ v.err = none)
    (hsafe : ∀ v ∈ visits, isRelevantFile table v.name = true →
      (extractFields v.name).isPanic = false) (st : ScanState) :
    ∃ log, walk table st visits =
      (Outcome.ok
        { records := st.records ++ visits.filterMap fun v => recordOfName table v.name,
          log := log }, log) := by
  induction visits generalizing st with
  | nil => exact ⟨st.log, by simp [walk]⟩
  | cons v vs ih =>
    have hv := hfile v (by simp)
    have hs := hsafe v (by simp)
    have ih1 := ih (fun w hw => hfile w (by simp [hw])) (fun w hw => hsafe w (by simp [hw]))
    obtain ⟨path, name, isDir, err⟩ := v
    simp only [] at hv hs
    obtain ⟨rfl, rfl⟩ := hv
    have hfn := walkFn_fileVisit table st path name
    unfold fileVisit at hfn
    rw [walk, hfn, List.filterMap_cons]
    by_cases hr : isRelevantFile table name = true
    · rw [if_pos hr]
      have hs1 := hs hr
      cases hx : extractFields name with
      | panic m => rw [hx] at hs1; cases hs1
      | error e =>
        have hro : recordOfName table name = none := by
          unfold recordOfName
          rw [if_pos hr, hx]
        simp only [hro]
        obtain ⟨log, hl⟩ := ih1 { st with log := st.log ++ [LogLine.fileError path e] }
        exact ⟨log, hl⟩
      | ok f =>
        simp only []
        cases hd : parseDate f.date with
        | panic m => exact absurd hd (parseDate_not_panic _ _)
        | error e =>
          have hro : recordOfName table name = none := by
            unfold recordOfName
            rw [if_pos hr, hx]
            simp only [hd]
          simp only [hro]
          obtain ⟨log, hl⟩ := ih1 { st with log := st.log ++ [LogLine.dateError path e] }
          exact ⟨log, hl⟩
        | ok t =>
          have hro : recordOfName table name =
              some { group := f.group, date := t, price := f.price,
                     establishment := f.establishment, category := f.category } := by
            unfold recordOfName
            rw [if_pos hr, hx]
            simp only [hd]
          simp only [hro]
          obtain ⟨log, hl⟩ := ih1
            { st with
              records := st.records ++
                [{ group := f.group, date := t, price := f.price,
                   establishment := f.establishment, category := f.category }] }
          refine ⟨log, ?_⟩
          rw [hl]
          simp
    · rw [if_neg hr]
      have hro : recordOfName table name = none := by
        unfold recordOfName
        rw [if_neg hr]
      simp only [hro]
      exact ih1 st

/-- Away from the names on which `extractFields` panics, `scanDirectory` returns,
in visitation order and without merging, the Records of the visited names that
pass the filter, `extractFields` and `parseDate`. -/
theorem scanDirectory_records_of_no_panic (table : Char → Char) (visits : List Visit)
    (hfile : ∀ v ∈ visits, v.isDir = false ∧ v.err = none)
    (hsafe : ∀ v ∈ visits, isRelevantFile table v.name = true →
      (extractFields v.name).isPanic = false) :
    (scanDirectory table visits).result =
      Outcome.ok (visits.filterMap fun v => recordOfName table v.name) := by
  obtain ⟨log, hl⟩ := walk_files_of_no_panic table visits hfile hsafe { records := [], log := [] }
  unfold scanDirectory
  rw [hl]
  simp

/-- C10 (the code at the failing input): when the walk visits the well-formed
name `rechnung-G1-ShopA-Food-10.00-2024-01-02.pdf` and then the relevant 6-token
name `invoice-G1-ShopA-2024-01-02.pdf`, `scanDirectory` returns no records at
all: the run panics, although the first name passes the relevance filter,
`extractFields` and `parseDate`. -/
theorem scan_loses_records_on_panic (table : Char → Char) (path1 path2 : String) :
    isRelevantFile table "rechnung-G1-ShopA-Food-10.00-2024-01-02.pdf" = true
      ∧ (∃ f t, extractFields "rechnung-G1-ShopA-Food-10.00-2024-01-02.pdf" = Outcome.ok f
          ∧ parseDate f.date = Outcome.ok t)
      ∧ (scanDirectory table
            [fileVisit path1 "rechnung-G1-ShopA-Food-10.00-2024-01-02.pdf",
             fileVisit path2 "invoice-G1-ShopA-2024-01-02.pdf"]).result =
          Outcome.panic "slice bounds out of range [3:2]" := by
  have hr1 : isRelevantFile table "rechnung-G1-ShopA-Food-10.00-2024-01-02.pdf" = true := by
    rw [isRelevantFile_ascii _ _ (by decide)]
    decide
  have hr2 : isRelevantFile table "invoice-G1-ShopA-2024-01-02.pdf" = true := by
    rw [isRelevantFile_ascii _ _ (by decide)]
    decide
  have hx1 : extractFields "rechnung-G1-ShopA-Food-10.00-2024-01-02.pdf" =
      Outcome.ok { group := "G1", date := "2024-01-02", price := "10.00",
                   establishment := "ShopA", category := "Food" } := by decide
  have hd1 : parseDate "2024-01-02" = Outcome.ok { year := 2024, month := 1, day := 2 } := by
    decide
  refine ⟨hr1, ⟨_, _, hx1, hd1⟩, ?_⟩
  unfold scanDirectory
  rw [walk, walkFn_fileVisit, if_pos hr1, hx1]
  simp only [hd1]
  rw [walk, walkFn_fileVisit, if_pos hr2, extractFields_six _ (by decide)]

/-! ## Lemmas on the walk -/

theorem printedMessage_of_stops (table : Char → Char) (v : Visit)
    (h : walkStops table v = true) : printedMessage table v = none := by
  obtain ⟨path, name, isDir, err⟩ := v
  unfold printedMessage
  unfold walkStops at h
  simp only [Bool.or_eq_true, Bool.and_eq_true, Bool.not_eq_true'] at h
  rcases h with h | ⟨⟨h1, h2⟩, h3⟩
  · have : ¬ err = none := by
      rintro rfl
      cases h
    simp [this]
  · cases hx : extractFields name with
    | panic m => simp
    | error e => rw [hx] at h3; cases h3
    | ok f => rw [hx] at h3; cases h3

/-- A call of the callback that ends the walk returns the error handed in, or
panics. -/
theorem walkFn_of_stops (table : Char → Char) (st : ScanState) (v : Visit)
    (h : walkStops table v = true) :
    (∃ e, v.err = some e ∧ walkFn table st v = Outcome.error e)
      ∨ (∃ m, v.err = none ∧ extractFields v.name = Outcome.panic m
          ∧ walkFn table st v = Outcome.panic m) := by
  obtain ⟨path, name, isDir, err⟩ := v
  unfold walkStops at h
  simp only [Bool.or_eq_true, Bool.and_eq_true, Bool.not_eq_true'] at h
  cases err with
  | some e => exact Or.inl ⟨e, rfl, rfl⟩
  | none =>
    rcases h with h | ⟨⟨h1, h2⟩, h3⟩
    · cases h
    · subst h1
      cases hx : extractFields name with
      | panic m =>
        refine Or.inr ⟨m, rfl, rfl, ?_⟩
        have hfn := walkFn_fileVisit table st path name
        unfold fileVisit at hfn
        rw [hfn, if_pos h2, hx]
      | error e => rw [hx] at h3; cases h3
      | ok f => rw [hx] at h3; cases h3

/-- A call of the callback that does not end the walk returns nil, having added
the Record of the visit, if any, and printed the message of the visit, if any. -/
theorem walkFn_of_not_stops (table : Char → Char) (st : ScanState) (v : Visit)
    (h : walkStops table v = false) :
    walkFn table st v =
      Outcome.ok
        { records := st.records ++ (recordOfVisit table v).toList,
          log := st.log ++ (printedMessage table v).toList } := by
  obtain ⟨path, name, isDir, err⟩ := v
  unfold walkStops at h
  rw [Bool.or_eq_false_iff] at h
  obtain ⟨h1, h2⟩ := h
  cases err with
  | some e => cases h1
  | none =>
  simp only [Bool.and_eq_false_imp, Bool.and_eq_true, Bool.not_eq_true'] at h2
  cases isDir with
  | true =>
    rw [walkFn_dir]
    simp [recordOfVisit, printedMessage]
  | false =>
    have hfn := walkFn_fileVisit table st path name
    unfold fileVisit at hfn
    rw [hfn]
    unfold recordOfVisit printedMessage recordOfName
    by_cases hr : isRelevantFile table name = true
    · have h3 := h2 ⟨rfl, hr⟩
      simp only [hr, and_self, if_true]
      cases hx : extractFields name with
      | panic m => rw [hx] at h3; cases h3
      | error e => simp
      | ok f =>
        simp only []
        cases hd : parseDate f.date with
        | panic m => exact absurd hd (parseDate_not_panic _ _)
        | error e => simp
        | ok t => simp
    · simp [hr]

/-- The output printed by the walk: what was printed before, then the messages
of the visits it makes, in order. -/
theorem walk_log (table : Char → Char) (st : ScanState) (visits : List Visit) :
    (walk table st visits).2 =
      st.log ++ (visited table visits).filterMap (printedMessage table) := by
  induction visits generalizing st with
  | nil => simp [walk, visited]
  | cons v vs ih =>
    rw [walk, visited]
    by_cases hs : walkStops table v = true
    · rw [if_pos hs]
      rcases walkFn_of_stops table st v hs with ⟨e, _, he⟩ | ⟨m, _, _, hm⟩
      · rw [he]
        simp [printedMessage_of_stops table v hs]
      · rw [hm]
        simp [printedMessage_of_stops table v hs]
    · rw [if_neg hs, walkFn_of_not_stops table st v (by simpa using hs)]
      simp only []
      rw [ih, List.filterMap_cons]
      cases printedMessage table v <;> simp

/-- Once the walk over the first entries has come through, it goes on with the
state they left. -/
theorem walk_append (table : Char → Char) (st st1 : ScanState) (before rest : List Visit)
    (h : (walk table st before).1 = Outcome.ok st1) :
    walk table st (before ++ rest) = walk table st1 rest := by
  induction before generalizing st with
  | nil =>
    simp only [walk, Outcome.ok.injEq] at h
    subst h
    rfl
  | cons v vs ih =>
    rw [List.cons_append, walk]
    rw [walk] at h
    cases hw : walkFn table st v with
    | ok st2 =>
      rw [hw] at h
      exact ih st2 h
    | error e =>
      rw [hw] at h
      cases h
    | panic m =>
      rw [hw] at h
      cases h

theorem scanDirectory_log (table : Char → Char) (visits : List Visit) :
    (scanDirectory table visits).log =
      (visited table visits).filterMap (printedMessage table) := by
  have h := walk_log table { records := [], log := [] } visits
  unfold scanDirectory
  split <;> rename_i heq <;> rw [heq] at h <;> simpa using h

/-- A walk in which no call of the callback ends it adds the Records and prints
the messages of all its visits, in order. -/
theorem walk_of_no_stop (table : Char → Char) (visits : List Visit)
    (h : ∀ v ∈ visits, walkStops table v = false) (st : ScanState) :
    walk table st visits =
      (Outcome.ok
        { records := st.records ++ visits.filterMap (recordOfVisit table),
          log := st.log ++ visits.filterMap (printedMessage table) },
        st.log ++ visits.filterMap (printedMessage table)) := by
  induction visits generalizing st with
  | nil => simp [walk]
  | cons v vs ih =>
    rw [walk, walkFn_of_not_stops table st v (h v (by simp))]
    simp only []
    rw [ih (fun w hw => h w (by simp [hw])), List.filterMap_cons, List.filterMap_cons]
    cases recordOfVisit table v <;> cases printedMessage table v <;> simp

/-- The Records of a walk without errors are those of the names of its regular
files, in order. -/
theorem filterMap_recordOfVisit (table : Char → Char) (visits : List Visit)
    (herr : ∀ v ∈ visits, v.err = none) :
    visits.filterMap (recordOfVisit table) =
      ((visits.filter fun v => !v.isDir).map Visit.name).filterMap (recordOfName table) := by
  induction visits with
  | nil => rfl
  | cons v vs ih =>
    have he := herr v (by simp)
    rw [List.filterMap_cons, List.filter_cons, ih (fun w hw => herr w (by simp [hw]))]
    unfold recordOfVisit
    cases hd : v.isDir with
    | true => simp [he]
    | false =>
      simp only [he, Bool.not_false, if_true, and_self, List.map_cons, List.filterMap_cons]

/-! ## The end-to-end example -/

/-- C9: when the regular files that the walk of a directory visits are
`rechnung-G1-ShopA-Food-10.00-2024-01-02.pdf` followed by
`invoice-G1-ShopB-Travel-20.00-2024-02-03.pdf` (directories may be visited before,
between and after them, and no entry gives an error), the scan returns their two
Records, prints no message, and the report is the single group G1 with the two
lines in visitation order. -/
theorem scan_and_report_two_files (table : Char → Char) (order : MapOrder)
    (visits : List Visit) (herr : ∀ v ∈ visits, v.err = none)
    (hfiles : (visits.filter fun v => !v.isDir).map Visit.name =
      ["rechnung-G1-ShopA-Food-10.00-2024-01-02.pdf",
       "invoice-G1-ShopB-Travel-20.00-2024-02-03.pdf"]) :
    ∃ records,
      records = [recordFood, recordTravel]
      ∧ scanDirectory table visits = { result := Outcome.ok records, log := [] }
      ∧ generateReport order records =
          "G1\n2024-01-02\t10.00\tShopA\tFood\n2024-02-03\t20.00\tShopB\tTravel\n\n" := by
  have hr1 : isRelevantFile table "rechnung-G1-ShopA-Food-10.00-2024-01-02.pdf" = true := by
    rw [isRelevantFile_ascii _ _ (by decide)]
    decide
  have hr2 : isRelevantFile table "invoice-G1-ShopB-Travel-20.00-2024-02-03.pdf" = true := by
    rw [isRelevantFile_ascii _ _ (by decide)]
    decide
  have hx1 : extractFields "rechnung-G1-ShopA-Food-10.00-2024-01-02.pdf" =
      Outcome.ok { group := "G1", date := "2024-01-02", price := "10.00",
                   establishment := "ShopA", category := "Food" } := by decide
  have hx2 : extractFields "invoice-G1-ShopB-Travel-20.00-2024-02-03.pdf" =
      Outcome.ok { group := "G1", date := "2024-02-03", price := "20.00",
                   establishment := "ShopB", category := "Travel" } := by decide
  have hd1 : parseDate "2024-01-02" = Outcome.ok { year := 2024, month := 1, day := 2 } := by
    decide
  have hd2 : parseDate "2024-02-03" = Outcome.ok { year := 2024, month := 2, day := 3 } := by
    decide
  have hn1 : recordOfName table "rechnung-G1-ShopA-Food-10.00-2024-01-02.pdf" =
      some recordFood := by
    unfold recordOfName
    rw [if_pos hr1, hx1]
    simp only [hd1]
    rfl
  have hn2 : recordOfName table "invoice-G1-ShopB-Travel-20.00-2024-02-03.pdf" =
      some recordTravel := by
    unfold recordOfName
    rw [if_pos hr2, hx2]
    simp only [hd2]
    rfl
  have hname : ∀ v ∈ visits, v.isDir = false →
      v.name = "rechnung-G1-ShopA-Food-10.00-2024-01-02.pdf"
        ∨ v.name = "invoice-G1-ShopB-Travel-20.00-2024-02-03.pdf" := by
    intro v hv hdir
    have hm : v.name ∈ (visits.filter fun v => !v.isDir).map Visit.name :=
      List.mem_map.mpr ⟨v, List.mem_filter.mpr ⟨hv, by simp [hdir]⟩, rfl⟩
    rw [hfiles] at hm
    simpa using hm
  have hstop : ∀ v ∈ visits, walkStops table v = false := by
    intro v hv
    unfold walkStops
    rw [herr v hv]
    cases hdir : v.isDir with
    | true => rfl
    | false =>
      rcases hname v hv hdir with h | h
      · rw [h, hx1]
        simp [Outcome.isPanic]
      · rw [h, hx2]
        simp [Outcome.isPanic]
  have hmsg : visits.filterMap (printedMessage table) = [] := by
    rw [List.filterMap_eq_nil_iff]
    intro v hv
    unfold printedMessage
    cases hdir : v.isDir with
    | true => simp
    | false =>
      rcases hname v hv hdir with h | h
      · rw [h, hx1]
        simp [hd1]
      · rw [h, hx2]
        simp [hd2]
  have hrec : visits.filterMap (recordOfVisit table) = [recordFood, recordTravel] := by
    rw [filterMap_recordOfVisit table visits herr, hfiles]
    simp [hn1, hn2]
  refine ⟨[recordFood, recordTravel], rfl, ?_, ?_⟩
  · unfold scanDirectory
    rw [walk_of_no_stop table visits hstop, hmsg, hrec]
    rfl
  · have hg : buildGroups [recordFood, recordTravel] =
        [("G1", [recordFood, recordTravel])] := by decide
    have hp := order.perm [("G1", [recordFood, recordTravel])]
    rw [List.perm_singleton] at hp
    unfold generateReport
    rw [hg, hp]
    decide

theorem scan_and_report_two_files_witness :
    (∀ v ∈ treeVisits slashJoin "inbox" treeByMonth, v.err = none)
      ∧ ((treeVisits slashJoin "inbox" treeByMonth).filter fun v => !v.isDir).map Visit.name =
          ["rechnung-G1-ShopA-Food-10.00-2024-01-02.pdf",
           "invoice-G1-ShopB-Travel-20.00-2024-02-03.pdf"]
      ∧ (∃ records,
          records = [recordFood, recordTravel]
          ∧ scanDirectory id (treeVisits slashJoin "inbox" treeByMonth) =
              { result := Outcome.ok records, log := [] }
          ∧ generateReport insertionOrder records =
              "G1\n2024-01-02\t10.00\tShopA\tFood\n2024-02-03\t20.00\tShopB\tTravel\n\n")
      ∧ listed treeByMonth = true
      ∧ scanDirectory id (treeVisits slashJoin "inbox" treeByMonth) =
          { result := Outcome.ok [recordFood, recordTravel], log := [] } :=
  ⟨by decide, by decide,
    scan_and_report_two_files id insertionOrder (treeVisits slashJoin "inbox" treeByMonth)
      (by decide) (by decide),
    by decide, by decide⟩

/-- The two sample trees list their entries as `filepath.Walk` reads them, and
the walk of `treeByMonth` makes five visits: the root, each sub-directory, and
the file in it. -/
theorem sample_trees_listed :
    listed treeByMonth = true
      ∧ listed treeFlat = true
      ∧ (treeVisits slashJoin "inbox" treeByMonth).map Visit.path =
          ["inbox", "inbox/2024-01",
           "inbox/2024-01/rechnung-G1-ShopA-Food-10.00-2024-01-02.pdf", "inbox/2024-02",
           "inbox/2024-02/invoice-G1-ShopB-Travel-20.00-2024-02-03.pdf"] := by
  decide

/-- With the two files side by side in one directory the walk visits
`invoice-...` before `rechnung-...` (the names are read in increasing order), and
the report lists the Travel line first. -/
theorem scan_and_report_flat (order : MapOrder) :
    increasing ["rechnung-G1-ShopA-Food-10.00-2024-01-02.pdf",
        "invoice-G1-ShopB-Travel-20.00-2024-02-03.pdf"] = false
      ∧ scanDirectory id (treeVisits slashJoin "inbox" treeFlat) =
          { result := Outcome.ok [recordTravel, recordFood], log := [] }
      ∧ generateReport order [recordTravel, recordFood] =
          "G1\n2024-02-03\t20.00\tShopB\tTravel\n2024-01-02\t10.00\tShopA\tFood\n\n" := by
  refine ⟨by decide, by decide, ?_⟩
  rw [generateReport_same_group order "G1" _ (by decide) (by decide)]
  decide

/-! ## Claims on the messages and errors of a scan -/

/-- The callback prints a message exactly on a regular file that is relevant and
on which `extractFields`, or `parseDate` on its date, returns an error. -/
theorem printedMessage_isSome_iff (table : Char → Char) (v : Visit) :
    (printedMessage table v).isSome = true ↔
      (v.err = none ∧ v.isDir = false ∧ isRelevantFile table v.name = true
        ∧ ((extractFields v.name).isError = true
          ∨ ∃ f, extractFields v.name = Outcome.ok f ∧ (parseDate f.date).isError = true)) := by
  unfold printedMessage
  by_cases hc : v.err = none ∧ v.isDir = false ∧ isRelevantFile table v.name = true
  · rw [if_pos hc]
    obtain ⟨h1, h2, h3⟩ := hc
    cases hx : extractFields v.name with
    | panic m => simp [h1, h2, h3, Outcome.isError]
    | error e => simp [h1, h2, h3, Outcome.isError]
    | ok f =>
      cases hd : parseDate f.date with
      | panic m => simp [h1, h2, h3, Outcome.isError, hd]
      | error e => simp [h1, h2, h3, Outcome.isError, hd]
      | ok t => simp [h1, h2, h3, Outcome.isError, hd]
  · rw [if_neg hc]
    simp only [Option.isSome_none, Bool.false_eq_true, false_iff]
    rintro ⟨h1, h2, h3, -⟩
    exact hc ⟨h1, h2, h3⟩

/-- Where the specification asks for a message the callback prints one, unless
`extractFields` panics; it prints none where the specification asks for none. -/
theorem printedMessage_isSome_iff_shouldReport (table : Char → Char) (v : Visit) :
    (printedMessage table v).isSome = true ↔
      (shouldReport table v = true ∧ (extractFields v.name).isPanic = false) := by
  obtain ⟨path, name, isDir, err⟩ := v
  unfold printedMessage shouldReport
  cases err with
  | some e => simp
  | none =>
    cases isDir with
    | true => simp
    | false =>
      cases hr : isRelevantFile table name with
      | false => simp
      | true =>
        cases hx : extractFields name with
        | panic m => simp [Outcome.isPanic]
        | error e => simp [Outcome.isPanic]
        | ok f =>
          cases hd : parseDate f.date with
          | panic m => exact absurd hd (parseDate_not_panic _ _)
          | error e => simp [Outcome.isPanic, Outcome.isOk, hd]
          | ok t => simp [Outcome.isPanic, Outcome.isOk, hd]

/-- C11 (the code at the failing input): `invoice-G1-ShopA-2024-01-02.pdf` is a
relevant regular file on which `extractFields` fails, so a message is due for
it; the scan prints none: it panics on this file, and the files after it are
never visited. On every visit without such a panic the callback prints exactly
the message that is due. -/
theorem scan_prints_no_message_on_panic (table : Char → Char) :
    (∀ (path : String) (rest : List Visit),
        shouldReport table (fileVisit path "invoice-G1-ShopA-2024-01-02.pdf") = true
          ∧ (extractFields "invoice-G1-ShopA-2024-01-02.pdf").isOk = false
          ∧ scanDirectory table (fileVisit path "invoice-G1-ShopA-2024-01-02.pdf" :: rest) =
              { result := Outcome.panic "slice bounds out of range [3:2]", log := [] })
      ∧ (∀ visits : List Visit,
          (scanDirectory table visits).log =
            (visited table visits).filterMap (printedMessage table))
      ∧ (∀ v : Visit,
          (printedMessage table v).isSome = true ↔
            (shouldReport table v = true ∧ (extractFields v.name).isPanic = false)) := by
  have hx : extractFields "invoice-G1-ShopA-2024-01-02.pdf" =
      Outcome.panic "slice bounds out of range [3:2]" := extractFields_six _ (by decide)
  have hr : isRelevantFile table "invoice-G1-ShopA-2024-01-02.pdf" = true := by
    rw [isRelevantFile_ascii _ _ (by decide)]
    decide
  refine ⟨?_, scanDirectory_log table, printedMessage_isSome_iff_shouldReport table⟩
  intro path rest
  refine ⟨?_, ?_, ?_⟩
  · unfold shouldReport fileVisit
    simp only [hr, hx]
    rfl
  · rw [hx]
    rfl
  · unfold scanDirectory walk
    rw [walkFn_fileVisit, if_pos hr, hx]

/-- On a directory, and on an irrelevant file such as `notes.txt`, the callback
returns nil and leaves records and output as they were. -/
theorem walkFn_silent (table : Char → Char) :
    (∀ (st : ScanState) (path name : String),
        walkFn table st { path := path, name := name, isDir := true, err := none } =
          Outcome.ok st)
      ∧ (∀ (st : ScanState) (path name : String), isRelevantFile table name = false →
          walkFn table st (fileVisit path name) = Outcome.ok st)
      ∧ isRelevantFile table "notes.txt" = false := by
  refine ⟨walkFn_dir table, ?_, ?_⟩
  · intro st path name hr
    rw [walkFn_fileVisit, if_neg (by simp [hr])]
  · rw [isRelevantFile_ascii _ _ (by decide)]
    decide

/-- C12: when the walk hands the callback a filesystem error for an entry it
reaches, `scanDirectory` returns that error and no records, whatever Records the
entries before had built; the entries after are not visited. -/
theorem scanDirectory_filesystem_error (table : Char → Char) (before rest : List Visit)
    (v : Visit) (e : GoError) (st : ScanState) (hv : v.err = some e)
    (hbefore : (walk table { records := [], log := [] } before).1 = Outcome.ok st) :
    scanDirectory table (before ++ v :: rest) = { result := Outcome.error e, log := st.log } := by
  unfold scanDirectory
  rw [walk_append table _ st before (v :: rest) hbefore, walk]
  have hw : walkFn table st v = Outcome.error e := by
    unfold walkFn
    rw [hv]
  rw [hw]

theorem scanDirectory_filesystem_error_witness :
    ({ path := "d/sub", name := "sub", isDir := true,
       err := some (GoError.fileSystem "permission denied") } : Visit).err =
        some (GoError.fileSystem "permission denied")
      ∧ (walk id { records := [], log := [] }
            [fileVisit "d/a.pdf" "rechnung-G1-ShopA-Food-10.00-2024-01-02.pdf"]).1 =
          Outcome.ok { records := [recordFood], log := [] }
      ∧ scanDirectory id
          ([fileVisit "d/a.pdf" "rechnung-G1-ShopA-Food-10.00-2024-01-02.pdf"]
            ++ { path := "d/sub", name := "sub", isDir := true,
                 err := some (GoError.fileSystem "permission denied") }
              :: [fileVisit "d/z.pdf" "invoice-G1-ShopB-Travel-20.00-2024-02-03.pdf"]) =
          { result := Outcome.error (GoError.fileSystem "permission denied"), log := [] } :=
  ⟨rfl, by decide,
    scanDirectory_filesystem_error id
      [fileVisit "d/a.pdf" "rechnung-G1-ShopA-Food-10.00-2024-01-02.pdf"]
      [fileVisit "d/z.pdf" "invoice-G1-ShopB-Travel-20.00-2024-02-03.pdf"]
      { path := "d/sub", name := "sub", isDir := true,
        err := some (GoError.fileSystem "permission denied") }
      (GoError.fileSystem "permission denied") { records := [recordFood], log := [] } rfl
      (by decide)⟩

/-! ## Claims on the order of the groups -/

/-- The report as the blocks of the groups, in the order in which the map is
iterated. -/
theorem generateReport_names (order : MapOrder) (rs : List Record) :
    ((order.iterate (buildGroups rs)).map Prod.fst).Perm (groupKeys rs)
      ∧ generateReport order rs =
          String.join (((order.iterate (buildGroups rs)).map Prod.fst).map
            fun g => groupBlock g (recordsOfGroup g rs)) := by
  constructor
  · have h := (order.perm (buildGroups rs)).map Prod.fst
    have hk : (buildGroups rs).map Prod.fst = groupKeys rs := by
      rw [buildGroups_eq, List.map_map]
      exact List.map_id _
    rw [hk] at h
    exact h
  · rw [generateReport_eq, List.map_map]
    congr 1
    apply List.map_congr_left
    intro e he
    have he1 : e ∈ buildGroups rs := (order.perm _).mem_iff.mp he
    rw [buildGroups_eq, List.mem_map] at he1
    obtain ⟨k, _, rfl⟩ := he1
    rfl

/-- C13: under any two map iteration orders the reports of a list of Records are
the concatenations of the same group blocks (header line, record lines, blank
line), one per distinct group, taken in two orders that are permutations of each
other; when all records share one group, or there is none, the two reports are
equal. -/
theorem generateReport_same_blocks (order1 order2 : MapOrder) (rs : List Record) :
    (∃ names1 names2 : List String,
        names1.Perm names2
          ∧ names1.Nodup
          ∧ (∀ g, g ∈ names1 ↔ ∃ r ∈ rs, r.group = g)
          ∧ generateReport order1 rs =
              String.join (names1.map fun g => groupBlock g (recordsOfGroup g rs))
          ∧ generateReport order2 rs =
              String.join (names2.map fun g => groupBlock g (recordsOfGroup g rs)))
      ∧ ((∀ r1 ∈ rs, ∀ r2 ∈ rs, r1.group = r2.group) →
          generateReport order1 rs = generateReport order2 rs) := by
  obtain ⟨hp1, he1⟩ := generateReport_names order1 rs
  obtain ⟨hp2, he2⟩ := generateReport_names order2 rs
  refine ⟨⟨_, _, hp1.trans hp2.symm, hp1.nodup_iff.mpr (groupKeys_nodup rs),
    fun g => (hp1.mem_iff).trans (mem_groupKeys rs g), he1, he2⟩, ?_⟩
  intro hsame
  cases rs with
  | nil => rw [generateReport_nil, generateReport_nil]
  | cons r rs =>
    have hg : ∀ x ∈ r :: rs, x.group = r.group := fun x hx => hsame x hx r (by simp)
    rw [generateReport_same_group order1 r.group _ (by simp) hg,
      generateReport_same_group order2 r.group _ (by simp) hg]

/-! ## Further claims on extractFields -/

/-- C14 (the code at the failing input): `extractFields` panics exactly on the
names with 6 tokens, where the length check has passed and the slice bounds of
`parts[3:len(parts)-4]` are 3 and 2; `invoice-G1-ShopA-2024-01-02.pdf` is such a
name. On every other name it returns an error or five fields. -/
theorem extractFields_panics_iff_six_tokens :
    (∀ filename : String,
        (extractFields filename).isPanic = true ↔ (tokens filename).length = 6)
      ∧ (tokens "invoice-G1-ShopA-2024-01-02.pdf").length = 6
      ∧ slice (tokens "invoice-G1-ShopA-2024-01-02.pdf") 3
            ((tokens "invoice-G1-ShopA-2024-01-02.pdf").length - 4) =
          Outcome.panic "slice bounds out of range [3:2]"
      ∧ (extractFields "invoice-G1-ShopA-2024-01-02.pdf").isPanic = true := by
  refine ⟨?_, by decide, by decide, ?_⟩
  · intro filename
    by_cases h5 : (tokens filename).length < 6
    · rw [extractFields_eq, if_pos h5]
      constructor
      · intro h
        cases h
      · intro h
        omega
    · by_cases h6 : (tokens filename).length = 6
      · rw [extractFields_six filename h6]
        exact ⟨fun _ => h6, fun _ => rfl⟩
      · rw [extractFields_seven filename (by omega)]
        constructor
        · intro h
          cases h
        · intro h
          exact absurd h h6
  · rw [extractFields_six _ (by decide)]
    rfl

theorem TrimSuffix_empty (s : String) : TrimSuffix s "" = s := by
  obtain ⟨l⟩ := s
  unfold TrimSuffix HasSuffix
  simp [String.length]

/-- C15 (as stated, refuted): `rechnung-G1-ShopA-Food-10.00-2024-01-02.pdf` parses
into five fields, while its stem `rechnung-G1-ShopA-Food-10.00-2024-01-02` is
stripped once more, at the dot of `10.00`, and is refused for having too few
parts. -/
theorem extractFields_stem_differs :
    stripExt "rechnung-G1-ShopA-Food-10.00-2024-01-02.pdf" =
        "rechnung-G1-ShopA-Food-10.00-2024-01-02"
      ∧ extractFields "rechnung-G1-ShopA-Food-10.00-2024-01-02.pdf" =
          Outcome.ok { group := "G1", date := "2024-01-02", price := "10.00",
                       establishment := "ShopA", category := "Food" }
      ∧ extractFields "rechnung-G1-ShopA-Food-10.00-2024-01-02" =
          Outcome.error
            (GoError.notEnoughParts "file rechnung-G1-ShopA-Food-10 does not have enough parts") := by
  decide

/-- C15 (amended): `extractFields` strips the extension itself; for a filename
whose stem has no extension of its own, `extractFields` of the stem returns the
same five fields, or the same error, as `extractFields` of the filename. -/
theorem extractFields_stem (filename : String) (h : Ext (stripExt filename) = "") :
    extractFields (stripExt filename) = extractFields filename := by
  have hs : stripExt (stripExt filename) = stripExt filename := by
    show TrimSuffix (stripExt filename) (Ext (stripExt filename)) = stripExt filename
    rw [h, TrimSuffix_empty]
  have ht : tokens (stripExt filename) = tokens filename := by
    unfold tokens
    rw [hs]
  rw [extractFields_eq, extractFields_eq, ht, hs]

theorem extractFields_stem_witness :
    Ext (stripExt "rechnung-G1-ShopA-Food-10-2024-01-02.pdf") = ""
      ∧ extractFields (stripExt "rechnung-G1-ShopA-Food-10-2024-01-02.pdf") =
          extractFields "rechnung-G1-ShopA-Food-10-2024-01-02.pdf" :=
  ⟨by decide, extractFields_stem "rechnung-G1-ShopA-Food-10-2024-01-02.pdf" (by decide)⟩

theorem extScan_of_no_dot (rev acc : List Char) (h : '.' ∉ rev) : extScan rev acc = [] := by
  induction rev generalizing acc with
  | nil => rfl
  | cons c rev ih =>
    rw [List.mem_cons, not_or] at h
    rw [extScan]
    split
    · rfl
    · rw [if_neg (fun hc => h.1 hc.symm)]
      exact ih _ h.2

/-- A name without a dot has an empty extension. -/
theorem Ext_of_no_dot (s : String) (h : '.' ∉ s.data) : Ext s = "" := by
  unfold Ext
  rw [extScan_of_no_dot _ _ (by simpa using h)]

/-! ## Lemmas on Time.Format -/

theorem digitsFixed_zero (w : Nat) : digitsFixed w 0 = List.replicate w '0' := by
  induction w with
  | zero => rfl
  | succ w ih =>
    rw [digitsFixed, ih, List.replicate_succ']
    rfl

/-- Zero padding in front of the digits written by `appendInt` gives the
fixed-width digits. -/
theorem decimal_pad (w fuel u : Nat) (hw : u < 10 ^ (w + 1)) (hf : u < 10 ^ fuel) :
    List.replicate (w + 1 - (decimal fuel u).length) '0' ++ decimal fuel u =
      digitsFixed (w + 1) u := by
  induction w generalizing fuel u with
  | zero =>
    have hu : u < 10 := by simpa using hw
    cases fuel with
    | zero =>
      have h0 : u = 0 := by simpa using hf
      subst h0
      rfl
    | succ f =>
      rw [decimal, if_pos hu]
      simp [digitsFixed, Nat.mod_eq_of_lt hu]
  | succ w ih =>
    cases fuel with
    | zero =>
      have h0 : u = 0 := by simpa using hf
      subst h0
      rw [digitsFixed_zero]
      simp [decimal]
    | succ f =>
      rw [decimal]
      by_cases hu : u < 10
      · rw [if_pos hu, digitsFixed, Nat.div_eq_of_lt hu, digitsFixed_zero, Nat.mod_eq_of_lt hu]
        simp
      · rw [if_neg hu, digitsFixed]
        have h1 : u / 10 < 10 ^ (w + 1) := by
          apply Nat.div_lt_of_lt_mul
          rw [← pow_succ']
          exact hw
        have h2 : u / 10 < 10 ^ f := by
          apply Nat.div_lt_of_lt_mul
          rw [← pow_succ']
          exact hf
        rw [← ih f (u / 10) h1 h2]
        simp only [List.length_append, List.length_singleton, List.append_assoc]
        congr 2
        omega

/-- A non-negative number below `10 ^ (w + 1)` is written by `appendInt` with width
`w + 1` as its `w + 1` decimal digits. -/
theorem appendInt_natCast (n w : Nat) (h : n < 10 ^ (w + 1)) :
    appendInt (n : Int) (w + 1) = ⟨digitsFixed (w + 1) n⟩ := by
  have hfuel : n < 10 ^ (n + 1) :=
    lt_of_lt_of_le (Nat.lt_pow_self (by decide) n) (Nat.pow_le_pow_right (by decide) (by omega))
  unfold appendInt
  simp only [Int.natAbs_ofNat]
  rw [if_neg (by omega), List.nil_append, decimal_pad w (n + 1) n h hfuel]

theorem ofNat_digitVal (c : Char) (h : isAsciiDigit c = true) :
    Char.ofNat ('0'.toNat + digitVal c) = c := by
  rw [isAsciiDigit_iff] at h
  have h0 : '0'.toNat = 48 := rfl
  unfold digitVal
  rw [h0]
  have : 48 + (c.toNat - 48) = c.toNat := by omega
  rw [this, Char.ofNat_toNat]

theorem digitsFixed_two (a b : Char) (ha : isAsciiDigit a = true) (hb : isAsciiDigit b = true) :
    digitsFixed 2 (10 * digitVal a + digitVal b) = [a, b] := by
  have h1 := digitVal_lt a ha
  have h2 := digitVal_lt b hb
  have e1 : (10 * digitVal a + digitVal b) % 10 = digitVal b := by omega
  have e2 : (10 * digitVal a + digitVal b) / 10 % 10 = digitVal a := by omega
  simp only [digitsFixed, List.nil_append, List.cons_append, e1, e2, ofNat_digitVal a ha,
    ofNat_digitVal b hb]

theorem digitsFixed_four (a b c d : Char) (ha : isAsciiDigit a = true)
    (hb : isAsciiDigit b = true) (hc : isAsciiDigit c = true) (hd : isAsciiDigit d = true) :
    digitsFixed 4 (1000 * digitVal a + 100 * digitVal b + 10 * digitVal c + digitVal d) =
      [a, b, c, d] := by
  have h1 := digitVal_lt a ha
  have h2 := digitVal_lt b hb
  have h3 := digitVal_lt c hc
  have h4 := digitVal_lt d hd
  have e1 : (1000 * digitVal a + 100 * digitVal b + 10 * digitVal c + digitVal d) % 10 =
      digitVal d := by omega
  have e2 : (1000 * digitVal a + 100 * digitVal b + 10 * digitVal c + digitVal d) / 10 % 10 =
      digitVal c := by omega
  have e3 : (1000 * digitVal a + 100 * digitVal b + 10 * digitVal c + digitVal d) / 10 / 10 % 10 =
      digitVal b := by omega
  have e4 : (1000 * digitVal a + 100 * digitVal b + 10 * digitVal c + digitVal d) / 10 / 10 / 10
      % 10 = digitVal a := by omega
  simp only [digitsFixed, List.nil_append, List.cons_append, e1, e2, e3, e4,
    ofNat_digitVal a ha, ofNat_digitVal b hb, ofNat_digitVal c hc, ofNat_digitVal d hd]

/-- Formatting a date that `time.Parse` returned gives back the parsed string. -/
theorem formatDate_of_timeParse (s : String) (t : Date) (h : timeParse s = Except.ok t) :
    formatDate t = s := by
  obtain ⟨y1, y2, y3, y4, m1, m2, d1, d2, hl, h1, h2, h3, h4, h5, h6, h7, h8, hy, hm, hd, -⟩ :=
    timeParse_ok_shape s t h
  have v1 := digitVal_lt y1 h1
  have v2 := digitVal_lt y2 h2
  have v3 := digitVal_lt y3 h3
  have v4 := digitVal_lt y4 h4
  have v5 := digitVal_lt m1 h5
  have v6 := digitVal_lt m2 h6
  have v7 := digitVal_lt d1 h7
  have v8 := digitVal_lt d2 h8
  obtain ⟨l⟩ := s
  simp only [] at hl
  subst hl
  unfold formatDate
  rw [hy, hm, hd, appendInt_natCast _ 3 (by norm_num; omega),
    appendInt_natCast _ 1 (by norm_num; omega), appendInt_natCast _ 1 (by norm_num; omega),
    digitsFixed_four y1 y2 y3 y4 h1 h2 h3 h4, digitsFixed_two m1 m2 h5 h6,
    digitsFixed_two d1 d2 h7 h8]
  rfl

theorem parseDate_ok_timeParse (s : String) (t : Date) (h : parseDate s = Outcome.ok t) :
    timeParse s = Except.ok t := by
  unfold parseDate at h
  split at h
  · cases h
  · rename_i t1 h1
    cases h
    exact h1

/-- A name on which `extractFields` returns fields has at least 7 tokens. -/
theorem seven_tokens_of_ok (filename : String) (f : Fields)
    (h : extractFields filename = Outcome.ok f) : 7 ≤ (tokens filename).length := by
  by_contra hn
  by_cases h5 : (tokens filename).length < 6
  · rw [extractFields_eq, if_pos h5] at h
    cases h
  · rw [extractFields_six filename (by omega)] at h
    cases h

/-- The fields of a Record built from a file name. -/
theorem recordOfName_some (table : Char → Char) (name : String) (r : Record)
    (h : recordOfName table name = some r) :
    ∃ f, extractFields name = Outcome.ok f ∧ parseDate f.date = Outcome.ok r.date
      ∧ r.group = f.group ∧ r.price = f.price ∧ r.establishment = f.establishment
      ∧ r.category = f.category := by
  unfold recordOfName at h
  split at h
  · split at h
    · rename_i f hx
      split at h
      · rename_i t hd
        simp only [Option.some.injEq] at h
        subst h
        exact ⟨f, hx, hd, rfl, rfl, rfl, rfl⟩
      · cases h
    · cases h
  · cases h

/-! ## Claims on the date round trip -/

/-- C16: formatting the date that `parseDate` returns for a string, with the
layout `2006-01-02` as `generateReport` does, gives that string back; so the
date column of the report line of a Record built from a file name is the last
three tokens of the name joined by `-`. -/
theorem date_round_trip (s : String) (t : Date) (table : Char → Char) (name : String)
    (r : Record) (hs : parseDate s = Outcome.ok t) (hr : recordOfName table name = some r) :
    formatDate t = s
      ∧ ∃ y m d, (tokens name)[(tokens name).length - 3]? = some y
          ∧ (tokens name)[(tokens name).length - 2]? = some m
          ∧ (tokens name)[(tokens name).length - 1]? = some d
          ∧ formatDate r.date = y ++ "-" ++ m ++ "-" ++ d
          ∧ recordLine r =
              (y ++ "-" ++ m ++ "-" ++ d) ++ "\t" ++ r.price ++ "\t" ++ r.establishment ++ "\t"
                ++ r.category ++ "\n" := by
  refine ⟨formatDate_of_timeParse s t (parseDate_ok_timeParse s t hs), ?_⟩
  obtain ⟨f, hx, hd, -⟩ := recordOfName_some table name r hr
  have h7 := seven_tokens_of_ok name f hx
  have hfmt : formatDate r.date = f.date :=
    formatDate_of_timeParse _ _ (parseDate_ok_timeParse _ _ hd)
  rw [extractFields_seven name h7] at hx
  simp only [Outcome.ok.injEq] at hx
  subst hx
  simp only [List.get_eq_getElem] at hfmt
  refine ⟨_, _, _, List.getElem?_eq_getElem _, List.getElem?_eq_getElem _,
    List.getElem?_eq_getElem _, hfmt, ?_⟩
  unfold recordLine
  rw [hfmt]

theorem date_round_trip_witness :
    parseDate "2024-02-29" = Outcome.ok { year := 2024, month := 2, day := 29 }
      ∧ recordOfName id "rechnung-G1-ShopA-Food-10.00-2024-01-02.pdf" = some recordFood
      ∧ (formatDate { year := 2024, month := 2, day := 29 } = "2024-02-29"
        ∧ ∃ y m d,
            (tokens "rechnung-G1-ShopA-Food-10.00-2024-01-02.pdf")[
              (tokens "rechnung-G1-ShopA-Food-10.00-2024-01-02.pdf").length - 3]? = some y
            ∧ (tokens "rechnung-G1-ShopA-Food-10.00-2024-01-02.pdf")[
              (tokens "rechnung-G1-ShopA-Food-10.00-2024-01-02.pdf").length - 2]? = some m
            ∧ (tokens "rechnung-G1-ShopA-Food-10.00-2024-01-02.pdf")[
              (tokens "rechnung-G1-ShopA-Food-10.00-2024-01-02.pdf").length - 1]? = some d
            ∧ formatDate recordFood.date = y ++ "-" ++ m ++ "-" ++ d
            ∧ recordLine recordFood =
                (y ++ "-" ++ m ++ "-" ++ d) ++ "\t" ++ recordFood.price ++ "\t"
                  ++ recordFood.establishment ++ "\t" ++ recordFood.category ++ "\n") :=
  ⟨by decide, by decide,
    date_round_trip "2024-02-29" { year := 2024, month := 2, day := 29 } id
      "rechnung-G1-ShopA-Food-10.00-2024-01-02.pdf" recordFood (by decide) (by decide)⟩
end DocScan
